import Mathlib

/-!
Ray tracer: vector arithmetic, ray/sphere intersection, scene intersection, path integrator.

Shallow embedding of `vector.c` and `raytracer.c`.

* A C `double` is an element of a linearly ordered field `K`; the theorems take `K = ℝ`
  (exact real arithmetic).  The one field that the program ever sets to `INFINITY`,
  `intersection.distance`, has type `WithTop K`.
* The `libm` functions `sqrt`, `powf` and `tan` are parameters of the definitions that call
  them; the theorems instantiate `sqrt` with `Real.sqrt`.  `fabs` is the absolute value,
  `fmax` is `max` and `fmin` is `min`.
* The pointer ranges `lights_first .. lights_last` and `objects_first .. objects_last` of
  `struct scene` are lists, and the loops over them are left folds.
* Division by a zero norm gives NaN/Inf in C; here it is the division of the field.
* The arrays `aa_grid` and `fb` are functions of the index; a `uint8_t` channel is an
  `Option Nat`, `none` being the conversion of a value outside `0 .. 255`.
* The functions that the double-precision counterexamples need are given a second time with
  every arithmetic result rounded (`dotp_fl`, ..., `ray_tracing_fl`); IEEE 754 binary64 is
  `round_binary64` and `sqrt_binary64` on the rationals.
-/

namespace Raytracer

variable {K : Type} [LinearOrderedField K]

/-! ## vector.h / vector.c -/

/-- The `struct vector` of `vector.h`. -/
structure vector (K : Type) where
  x : K
  y : K
  z : K
deriving DecidableEq

/-- Dot product of vectors `a` and `b`. -/
def dotp (a b : vector K) : K :=
  a.x * b.x + a.y * b.y + a.z * b.z

/-- Vector addition of `a` and `b`. -/
def addv (a b : vector K) : vector K :=
  { x := a.x + b.x, y := a.y + b.y, z := a.z + b.z }

/-- Vector subtraction of `a` by `b`. -/
def subv (a b : vector K) : vector K :=
  { x := a.x - b.x, y := a.y - b.y, z := a.z - b.z }

/-- Hadamard product (element-wise multiplication) of vectors `a` and `b`. -/
def hadp (a b : vector K) : vector K :=
  { x := a.x * b.x, y := a.y * b.y, z := a.z * b.z }

/-- Multiplication of vector `a` by a scalar `b`. -/
def mulv (a : vector K) (b : K) : vector K :=
  { x := a.x * b, y := a.y * b, z := a.z * b }

/-- Division of vector `a` by a scalar `b`. -/
def divv (a : vector K) (b : K) : vector K :=
  { x := a.x / b, y := a.y / b, z := a.z / b }

/-- Norm of vector `a`: `sqrt(dotp(a, a))`. -/
def norm (sqrt : K → K) (a : vector K) : K :=
  sqrt (dotp a a)

/-- Normalized form of vector `a`: `divv(a, norm(a))`. -/
def normalize (sqrt : K → K) (a : vector K) : vector K :=
  divv a (norm sqrt a)

/-! ## raytracer.c: data model -/

/-- The `struct gradient`; the field `end_` is the C field `end`. -/
structure gradient (K : Type) where
  start : vector K
  end_ : vector K

/-- The `struct sphere`. -/
structure sphere (K : Type) where
  center : vector K
  radius : K
deriving DecidableEq

/-- The `struct light`. -/
structure light (K : Type) where
  origin : vector K
  intensity : vector K

/-- The `struct material`. -/
structure material (K : Type) where
  diffuse : vector K
  specular : vector K
  reflection : vector K
  smoothness : K
deriving DecidableEq

/-- The `struct object`. -/
structure object (K : Type) where
  shape : sphere K
  material : material K
deriving DecidableEq

/-- The `struct scene`; the two pointer ranges are lists. -/
structure scene (K : Type) where
  camera : vector K
  background : gradient K
  lights : List (light K)
  objects : List (object K)

/-- The `struct ray`. -/
structure ray (K : Type) where
  origin : vector K
  direction : vector K

/-- The `struct intersection`; `distance` can hold `INFINITY`. -/
structure intersection (K : Type) where
  intersected : Int
  distance : WithTop K
  point : vector K

/-- The `struct scene_intersection`. -/
structure scene_intersection (K : Type) where
  intersection : intersection K
  object : object K

/-- The all-zero vector `{0.0, 0.0, 0.0}`. -/
def zero_vector : vector K :=
  { x := 0, y := 0, z := 0 }

/-- The zero-initialised `struct object` of `struct scene_intersection nearest = {0}`. -/
def zero_object : object K :=
  { shape := { center := zero_vector, radius := 0 },
    material := { diffuse := zero_vector, specular := zero_vector,
                  reflection := zero_vector, smoothness := 0 } }

/-- The compound literal `(struct intersection) { .intersected = 0 }`: the fields that
are not named are zero. -/
def no_intersection : intersection K :=
  { intersected := 0, distance := 0, point := zero_vector }

/-! ## raytracer.c: functions -/

/-- The function `budge`. -/
def budge (point direction : vector K) : vector K :=
  addv point (mulv direction (1 / 100))

/-- The function `linear_interpolation`. -/
def linear_interpolation (gradient : gradient K) (x : K) : vector K :=
  addv (mulv gradient.start (1 - x)) (mulv gradient.end_ x)

/-- The function `sphere_normal`. -/
def sphere_normal (sqrt : K → K) (sphere : sphere K) (point : vector K) : vector K :=
  normalize sqrt (subv point sphere.center)

/-- The function `reflect`. -/
def reflect (incident normal : vector K) : vector K :=
  subv (mulv (mulv normal (dotp incident normal)) 2) incident

/-- The function `irradiance`. -/
def irradiance (light normal : vector K) : K :=
  max (dotp normal light) 0

/-- The function `diffuse_illumination`. -/
def diffuse_illumination (light normal : vector K) (material : material K) : vector K :=
  let e := irradiance light normal
  mulv material.diffuse e

/-- The function `specular_illumination`. -/
def specular_illumination (sqrt : K → K) (powf : K → K → K) (light view normal : vector K)
    (material : material K) : vector K :=
  let half_vector := normalize sqrt (addv light view)
  let e := irradiance half_vector normal
  mulv material.specular (powf e material.smoothness)

/-- The function `blinn_phong`. -/
def blinn_phong (sqrt : K → K) (powf : K → K → K) (light brightness view normal : vector K)
    (material : material K) : vector K :=
  let diff := diffuse_illumination light normal material
  let spec := specular_illumination sqrt powf light view normal material
  hadp (addv diff spec) brightness

/-- The function `ray_sphere_intersection` (Real-Time Rendering 3rd Ed. §16.6.2). -/
def ray_sphere_intersection (sqrt : K → K) (ray : ray K) (sphere : sphere K) :
    intersection K :=
  let l := subv sphere.center ray.origin
  let p := dotp l ray.direction
  let l2 := dotp l l
  let r2 := sphere.radius * sphere.radius
  let behind : Bool := decide (p < 0)
  let outside : Bool := decide (l2 > r2)
  if behind && outside then
    no_intersection
  else
    let m2 := l2 - p * p
    let miss : Bool := decide (m2 > r2)
    if miss then
      no_intersection
    else
      let q := sqrt (r2 - m2)
      let t := if outside then p - q else p + q
      { intersected := 1,
        distance := (t : K),
        point := addv ray.origin (mulv ray.direction t) }

/-- The function `ray_scene_intersection`: the loop over the objects is a left fold whose
accumulator is `nearest`. -/
def ray_scene_intersection (sqrt : K → K) (ray : ray K) (scene : scene K) :
    scene_intersection K :=
  let nearest : scene_intersection K :=
    { intersection := { intersected := 0, distance := ⊤, point := zero_vector },
      object := zero_object }
  scene.objects.foldl
    (fun nearest it =>
      let intx := ray_sphere_intersection sqrt ray it.shape
      if intx.intersected = 0 then
        nearest
      else if intx.distance < nearest.intersection.distance then
        { intersection := intx, object := it }
      else
        nearest)
    nearest

/-- The function `is_light_blocked`; the result is the C truth value `0` or `1`. -/
def is_light_blocked (sqrt : K → K) (scene : scene K) (point : vector K) (light : light K) :
    Int :=
  let light_distance := norm sqrt (subv light.origin point)
  let light_vector := normalize sqrt (subv light.origin point)
  let light_ray : ray K := { origin := point, direction := light_vector }
  let intx := (ray_scene_intersection sqrt light_ray scene).intersection
  if intx.intersected ≠ 0 ∧ intx.distance < (light_distance : K) then 1 else 0

/-- The loop over the lights in `ray_tracing`: a left fold whose accumulator is `illum`. -/
def direct_illumination (sqrt : K → K) (powf : K → K → K) (scene : scene K)
    (point view n : vector K) (mat : material K) : vector K :=
  scene.lights.foldl
    (fun illum it =>
      if is_light_blocked sqrt scene point it ≠ 0 then
        illum
      else
        let l := normalize sqrt (subv it.origin point)
        let il := blinn_phong sqrt powf l it.intensity view n mat
        addv illum il)
    zero_vector

/-- The function `ray_tracing`.  The recursive call is made with `--depth`, and only when
`depth ≥ 0`, so the recursion is well founded on `depth + 1`. -/
def ray_tracing (sqrt : K → K) (powf : K → K → K) (ray : ray K) (scene : scene K)
    (depth : Int) : vector K :=
  let intx := ray_scene_intersection sqrt ray scene
  if h : depth < 0 ∨ intx.intersection.intersected = 0 then
    linear_interpolation scene.background |ray.direction.y|
  else
    let view := mulv ray.direction (-1)
    let n := sphere_normal sqrt intx.object.shape intx.intersection.point
    let point := budge intx.intersection.point n
    let mat := intx.object.material
    let illum := direct_illumination sqrt powf scene point view n mat
    let reflect_ray : Raytracer.ray K := { origin := point, direction := reflect view n }
    let reflect_illum := ray_tracing sqrt powf reflect_ray scene (depth - 1)
    addv illum (hadp reflect_illum mat.reflection)
termination_by (depth + 1).toNat
decreasing_by
  omega

/-- The evaluation of `ray_tracing` with its invocations recorded: the first component is
the value that `ray_tracing` returns, the second is the `depth` argument of every
invocation of `ray_tracing` that the evaluation reaches, in call order (the head is the
outermost invocation, every later entry is a recursive call). -/
def ray_tracing_trace (sqrt : K → K) (powf : K → K → K) (ray : ray K) (scene : scene K)
    (depth : Int) : vector K × List Int :=
  let intx := ray_scene_intersection sqrt ray scene
  if h : depth < 0 ∨ intx.intersection.intersected = 0 then
    (linear_interpolation scene.background |ray.direction.y|, [depth])
  else
    let view := mulv ray.direction (-1)
    let n := sphere_normal sqrt intx.object.shape intx.intersection.point
    let point := budge intx.intersection.point n
    let mat := intx.object.material
    let illum := direct_illumination sqrt powf scene point view n mat
    let reflect_ray : Raytracer.ray K := { origin := point, direction := reflect view n }
    let reflect_illum := ray_tracing_trace sqrt powf reflect_ray scene (depth - 1)
    (addv illum (hadp reflect_illum.1 mat.reflection), depth :: reflect_illum.2)
termination_by (depth + 1).toNat
decreasing_by
  omega

/-! ## raytracer.c: sampling and image assembly -/

/-- The `struct color`.  A channel is a `uint8_t`; `none` stands for the result of a
conversion from a `double` whose integral part is not in `0 .. 255`, which C does not
define. -/
structure color where
  r : Option Nat
  g : Option Nat
  b : Option Nat
deriving DecidableEq

/-- The implicit conversion of a `double` to `uint8_t`: the fractional part is discarded,
and the result is defined only when the integral part is in `0 .. 255`. -/
def to_uint8 [FloorRing K] (v : K) : Option Nat :=
  if -1 < v ∧ v < 256 then some ⌊v⌋₊ else none

/-- The initializer `255.0 * sqrt(fmin(c, 1.0))` of a channel of `render_pixel`, converted to
`uint8_t`.  The `sqrt` of a negative `double` is NaN; the C standard does not define the
conversion of NaN to `uint8_t`, and the compiled program stores 0. -/
def gamma_channel [FloorRing K] (sqrt : K → K) (c : K) : Option Nat :=
  if min c 1 < 0 then some 0 else to_uint8 (255 * sqrt (min c 1))

/-- The function `screen_coordinates`; `PI` is `3.14159` and `FOV` is `PI / 4.0`. -/
def screen_coordinates (tan : K → K) (sub_pixel : vector K) (w h : Int) : vector K :=
  let aspect_ratio := (h : K) / (w : K)
  { x := (2 * sub_pixel.x / (w : K) - 1) * tan (314159 / 100000 / 4 / 2),
    y := -(2 * sub_pixel.y / (h : K) - 1) * tan (314159 / 100000 / 4 / 2) * aspect_ratio,
    z := 1 }

/-- The averaged radiance of `render_pixel`: the value of `illum` after
`illum = divv(illum, AA_GRID_SIZE)`.  The array `aa_grid` is a function of the index,
`AA_GRID_SIZE` is `4 * 4` and `REFLECTION_DEPTH` is `8`. -/
def pixel_radiance (sqrt : K → K) (powf : K → K → K) (tan : K → K) (scene : scene K)
    (aa_grid : Nat → vector K) (x y w h : Int) : vector K :=
  let illum := (List.range (4 * 4)).foldl
    (fun illum i =>
      let sub_pixel : vector K :=
        { x := (x : K) + (aa_grid i).x, y := (y : K) + (aa_grid i).y, z := 0 }
      let s := screen_coordinates tan sub_pixel w h
      let r : ray K := { origin := scene.camera, direction := normalize sqrt s }
      let il := ray_tracing sqrt powf r scene 8
      addv illum il)
    zero_vector
  divv illum (4 * 4)

/-- The function `render_pixel`: the gamma correction of the averaged radiance. -/
def render_pixel [FloorRing K] (sqrt : K → K) (powf : K → K → K) (tan : K → K)
    (scene : scene K) (aa_grid : Nat → vector K) (x y w h : Int) : color :=
  let illum := pixel_radiance sqrt powf tan scene aa_grid x y w h
  { r := gamma_channel sqrt illum.x,
    g := gamma_channel sqrt illum.y,
    b := gamma_channel sqrt illum.z }

/-- The function `init_anti_aliasing_grid`: the array is a function of the index and the
loop stores entry `i` for `i = 0 .. AA_GRID_SIZE - 1`. -/
def init_anti_aliasing_grid (grid : Nat → vector K) : Nat → vector K :=
  let dx : K := 1 / (1 + 4)
  let dy : K := 1 / (1 + 4)
  (List.range (4 * 4)).foldl
    (fun grid i =>
      Function.update grid i
        { x := dx + dx * ((i % 4 : Nat) : K), y := dy + dy * ((i / 4 : Nat) : K), z := 0 })
    grid

/-- The value of an `int` computation: the mathematical result reduced to 32 bits, two's
complement.  (Signed overflow is undefined in C; the reduction is the identity on the
`int` range.) -/
def int_wrap (n : Int) : Int :=
  (n + 2 ^ 31) % 2 ^ 32 - 2 ^ 31

/-- The function `render`: the framebuffer is a function of the index, and the two nested
loops store `render_pixel(scene, aa_grid, x, y, w, h)` at `i = x + y * w`. -/
def render [FloorRing K] (sqrt : K → K) (powf : K → K → K) (tan : K → K) (scene : scene K)
    (aa_grid : Nat → vector K) (fb : Int → color) (w h : Int) : Int → color :=
  (List.range w.toNat).foldl
    (fun fb (x : Nat) =>
      (List.range h.toNat).foldl
        (fun fb (y : Nat) =>
          let i := int_wrap ((x : Int) + int_wrap ((y : Int) * w))
          Function.update fb i (render_pixel sqrt powf tan scene aa_grid x y w h))
        fb)
    fb

/-- The stores `fb[i] = v` that `render` performs, as pairs `(i, v)` in program order. -/
def render_writes [FloorRing K] (sqrt : K → K) (powf : K → K → K) (tan : K → K)
    (scene : scene K) (aa_grid : Nat → vector K) (w h : Int) : List (Int × color) :=
  (List.range w.toNat).flatMap
    (fun (x : Nat) =>
      (List.range h.toNat).map
        (fun (y : Nat) =>
          (int_wrap ((x : Int) + int_wrap ((y : Int) * w)),
            render_pixel sqrt powf tan scene aa_grid x y w h)))

/-! ## The same functions with rounded arithmetic

The definitions `f_fl` below are the functions `f` above with the result of every arithmetic
operation on `double`s passed through a rounding function `rnd`, in the order of evaluation
of the C expressions (`a + b + c` is `(a + b) + c`; no operation is fused).  With `rnd = id`
they are the exact functions; with `rnd = round_binary64` and `sqrt = sqrt_binary64`, on the
rationals, they are the computation in IEEE 754 binary64 with rounding to nearest. -/

/-- The function `dotp`, every operation rounded. -/
def dotp_fl (rnd : K → K) (a b : vector K) : K :=
  rnd (rnd (rnd (a.x * b.x) + rnd (a.y * b.y)) + rnd (a.z * b.z))

/-- The function `addv`, every operation rounded. -/
def addv_fl (rnd : K → K) (a b : vector K) : vector K :=
  { x := rnd (a.x + b.x), y := rnd (a.y + b.y), z := rnd (a.z + b.z) }

/-- The function `subv`, every operation rounded. -/
def subv_fl (rnd : K → K) (a b : vector K) : vector K :=
  { x := rnd (a.x - b.x), y := rnd (a.y - b.y), z := rnd (a.z - b.z) }

/-- The function `hadp`, every operation rounded. -/
def hadp_fl (rnd : K → K) (a b : vector K) : vector K :=
  { x := rnd (a.x * b.x), y := rnd (a.y * b.y), z := rnd (a.z * b.z) }

/-- The function `mulv`, every operation rounded. -/
def mulv_fl (rnd : K → K) (a : vector K) (b : K) : vector K :=
  { x := rnd (a.x * b), y := rnd (a.y * b), z := rnd (a.z * b) }

/-- The function `divv`, every operation rounded. -/
def divv_fl (rnd : K → K) (a : vector K) (b : K) : vector K :=
  { x := rnd (a.x / b), y := rnd (a.y / b), z := rnd (a.z / b) }

/-- The function `norm`, with the rounded `dotp`; `sqrt` returns a rounded result. -/
def norm_fl (rnd : K → K) (sqrt : K → K) (a : vector K) : K :=
  sqrt (dotp_fl rnd a a)

/-- The function `normalize`, every operation rounded. -/
def normalize_fl (rnd : K → K) (sqrt : K → K) (a : vector K) : vector K :=
  divv_fl rnd a (norm_fl rnd sqrt a)

/-- The function `budge`, every operation rounded; the constant `0.01` is the rounded
`1 / 100`. -/
def budge_fl (rnd : K → K) (point direction : vector K) : vector K :=
  addv_fl rnd point (mulv_fl rnd direction (rnd (1 / 100)))

/-- The function `linear_interpolation`, every operation rounded. -/
def linear_interpolation_fl (rnd : K → K) (gradient : gradient K) (x : K) : vector K :=
  addv_fl rnd (mulv_fl rnd gradient.start (rnd (1 - x))) (mulv_fl rnd gradient.end_ x)

/-- The function `sphere_normal`, every operation rounded. -/
def sphere_normal_fl (rnd : K → K) (sqrt : K → K) (sphere : sphere K) (point : vector K) :
    vector K :=
  normalize_fl rnd sqrt (subv_fl rnd point sphere.center)

/-- The function `reflect`, every operation rounded. -/
def reflect_fl (rnd : K → K) (incident normal : vector K) : vector K :=
  subv_fl rnd (mulv_fl rnd (mulv_fl rnd normal (dotp_fl rnd incident normal)) 2) incident

/-- The function `irradiance`, with the rounded `dotp`. -/
def irradiance_fl (rnd : K → K) (light normal : vector K) : K :=
  max (dotp_fl rnd normal light) 0

/-- The function `diffuse_illumination`, every operation rounded. -/
def diffuse_illumination_fl (rnd : K → K) (light normal : vector K) (material : material K) :
    vector K :=
  let e := irradiance_fl rnd light normal
  mulv_fl rnd material.diffuse e

/-- The function `specular_illumination`, every operation rounded; `powf` returns a rounded
result. -/
def specular_illumination_fl (rnd : K → K) (sqrt : K → K) (powf : K → K → K)
    (light view normal : vector K) (material : material K) : vector K :=
  let half_vector := normalize_fl rnd sqrt (addv_fl rnd light view)
  let e := irradiance_fl rnd half_vector normal
  mulv_fl rnd material.specular (powf e material.smoothness)

/-- The function `blinn_phong`, every operation rounded. -/
def blinn_phong_fl (rnd : K → K) (sqrt : K → K) (powf : K → K → K)
    (light brightness view normal : vector K) (material : material K) : vector K :=
  let diff := diffuse_illumination_fl rnd light normal material
  let spec := specular_illumination_fl rnd sqrt powf light view normal material
  hadp_fl rnd (addv_fl rnd diff spec) brightness

/-- The function `ray_sphere_intersection`, every operation rounded. -/
def ray_sphere_intersection_fl (rnd : K → K) (sqrt : K → K) (ray : ray K) (sphere : sphere K) :
    intersection K :=
  let l := subv_fl rnd sphere.center ray.origin
  let p := dotp_fl rnd l ray.direction
  let l2 := dotp_fl rnd l l
  let r2 := rnd (sphere.radius * sphere.radius)
  let behind : Bool := decide (p < 0)
  let outside : Bool := decide (l2 > r2)
  if behind && outside then
    no_intersection
  else
    let m2 := rnd (l2 - rnd (p * p))
    let miss : Bool := decide (m2 > r2)
    if miss then
      no_intersection
    else
      let q := sqrt (rnd (r2 - m2))
      let t := if outside then rnd (p - q) else rnd (p + q)
      { intersected := 1,
        distance := (t : K),
        point := addv_fl rnd ray.origin (mulv_fl rnd ray.direction t) }

/-- The function `ray_scene_intersection`, with the rounded `ray_sphere_intersection`. -/
def ray_scene_intersection_fl (rnd : K → K) (sqrt : K → K) (ray : ray K) (scene : scene K) :
    scene_intersection K :=
  let nearest : scene_intersection K :=
    { intersection := { intersected := 0, distance := ⊤, point := zero_vector },
      object := zero_object }
  scene.objects.foldl
    (fun nearest it =>
      let intx := ray_sphere_intersection_fl rnd sqrt ray it.shape
      if intx.intersected = 0 then
        nearest
      else if intx.distance < nearest.intersection.distance then
        { intersection := intx, object := it }
      else
        nearest)
    nearest

/-- The function `is_light_blocked`, every operation rounded. -/
def is_light_blocked_fl (rnd : K → K) (sqrt : K → K) (scene : scene K) (point : vector K)
    (light : light K) : Int :=
  let light_distance := norm_fl rnd sqrt (subv_fl rnd light.origin point)
  let light_vector := normalize_fl rnd sqrt (subv_fl rnd light.origin point)
  let light_ray : ray K := { origin := point, direction := light_vector }
  let intx := (ray_scene_intersection_fl rnd sqrt light_ray scene).intersection
  if intx.intersected ≠ 0 ∧ intx.distance < (light_distance : K) then 1 else 0

/-- The loop over the lights in `ray_tracing`, every operation rounded. -/
def direct_illumination_fl (rnd : K → K) (sqrt : K → K) (powf : K → K → K) (scene : scene K)
    (point view n : vector K) (mat : material K) : vector K :=
  scene.lights.foldl
    (fun illum it =>
      if is_light_blocked_fl rnd sqrt scene point it ≠ 0 then
        illum
      else
        let l := normalize_fl rnd sqrt (subv_fl rnd it.origin point)
        let il := blinn_phong_fl rnd sqrt powf l it.intensity view n mat
        addv_fl rnd illum il)
    zero_vector

/-- The function `ray_tracing`, every operation rounded. -/
def ray_tracing_fl (rnd : K → K) (sqrt : K → K) (powf : K → K → K) (ray : ray K)
    (scene : scene K) (depth : Int) : vector K :=
  let intx := ray_scene_intersection_fl rnd sqrt ray scene
  if h : depth < 0 ∨ intx.intersection.intersected = 0 then
    linear_interpolation_fl rnd scene.background |ray.direction.y|
  else
    let view := mulv_fl rnd ray.direction (-1)
    let n := sphere_normal_fl rnd sqrt intx.object.shape intx.intersection.point
    let point := budge_fl rnd intx.intersection.point n
    let mat := intx.object.material
    let illum := direct_illumination_fl rnd sqrt powf scene point view n mat
    let reflect_ray : Raytracer.ray K :=
      { origin := point, direction := reflect_fl rnd view n }
    let reflect_illum := ray_tracing_fl rnd sqrt powf reflect_ray scene (depth - 1)
    addv_fl rnd illum (hadp_fl rnd reflect_illum mat.reflection)
termination_by (depth + 1).toNat
decreasing_by
  omega

/-- The initializer `255.0 * sqrt(fmin(c, 1.0))` of a channel of `render_pixel` with the
product rounded, converted to `uint8_t` as in `gamma_channel`. -/
def gamma_channel_fl [FloorRing K] (rnd : K → K) (sqrt : K → K) (c : K) : Option Nat :=
  if min c 1 < 0 then some 0 else to_uint8 (rnd (255 * sqrt (min c 1)))

/-! ## IEEE 754 binary64 on the rationals

A finite `double` is the rational number that it represents.  The exponent range is
bounded below (subnormal numbers) and not above: a result beyond the largest finite
`double` is rounded as if the exponent were unbounded, and no infinity or NaN is modelled. -/

/-- The loop of `bit_length`: counts the halvings of `n` down to zero. -/
def bit_length_loop : Nat → Nat → Nat → Nat
  | 0, _, acc => acc
  | fuel + 1, n, acc => if n = 0 then acc else bit_length_loop fuel (n / 2) (acc + 1)

/-- The number of binary digits of `n`: `2 ^ (bit_length n - 1) ≤ n < 2 ^ bit_length n`
for `n > 0`. -/
def bit_length (n : Nat) : Nat :=
  bit_length_loop n n 0

/-- Rounding of a rational to the nearest `double`, ties to the value with an even
significand: the significand has 53 binary digits and the unit in the last place is at
least `2 ^ (-1074)`. -/
def round_binary64 (x : ℚ) : ℚ :=
  if x = 0 then 0 else
    let e0 : Int := (bit_length x.num.natAbs : Int) - (bit_length x.den : Int)
    let e : Int := if (2 : ℚ) ^ e0 ≤ |x| then e0 else e0 - 1
    let k : Int := max (e - 52) (-1074)
    let s : ℚ := |x| / 2 ^ k
    let f : Int := ⌊s⌋
    let m : Int :=
      if s - f < 1 / 2 then f
      else if 1 / 2 < s - f then f + 1
      else if f % 2 = 0 then f else f + 1
    (if x < 0 then -1 else 1) * m * 2 ^ k

/-- The loop of `isqrt`: the binary digits of the root, from the highest. -/
def isqrt_loop (n : Nat) : Nat → Nat → Nat
  | 0, r => r
  | k + 1, r =>
    if (r + 2 ^ k) * (r + 2 ^ k) ≤ n then isqrt_loop n k (r + 2 ^ k) else isqrt_loop n k r

/-- The integer square root: the largest `r` with `r * r ≤ n`. -/
def isqrt (n : Nat) : Nat :=
  isqrt_loop n (bit_length n / 2 + 1) 0

/-- The correctly rounded square root of a `double`: the `double` nearest to the exact
square root.  The square root of a negative number is NaN in C; it is 0 here, and no
function below takes the square root of a negative number. -/
def sqrt_binary64 (x : ℚ) : ℚ :=
  if x ≤ 0 then 0 else
    let e0 : Int := ((bit_length x.num.natAbs : Int) - (bit_length x.den : Int)) / 2
    let e : Int :=
      if (4 : ℚ) ^ (e0 + 1) ≤ x then e0 + 1 else if (4 : ℚ) ^ e0 ≤ x then e0 else e0 - 1
    let k : Int := e - 52
    let s : ℚ := x / 4 ^ k
    let f : Nat := isqrt ⌊s⌋₊
    let m : Nat :=
      if s < ((f : ℚ) + 1 / 2) ^ 2 then f
      else if ((f : ℚ) + 1 / 2) ^ 2 < s then f + 1
      else if f % 2 = 0 then f else f + 1
    (m : ℚ) * 2 ^ k

/-! ## Ray/sphere intersection: the branch structure -/

/-- The flag `intersected` is `1` exactly when neither early return is taken. -/
theorem rsi_intersected_iff (sqrt : K → K) (ray : ray K) (sphere : sphere K) :
    (ray_sphere_intersection sqrt ray sphere).intersected = 1 ↔
      ¬ (dotp (subv sphere.center ray.origin) ray.direction < 0 ∧
          dotp (subv sphere.center ray.origin) (subv sphere.center ray.origin) >
            sphere.radius * sphere.radius) ∧
      ¬ (dotp (subv sphere.center ray.origin) (subv sphere.center ray.origin) -
            dotp (subv sphere.center ray.origin) ray.direction *
              dotp (subv sphere.center ray.origin) ray.direction >
          sphere.radius * sphere.radius) := by
  unfold ray_sphere_intersection
  simp only [Bool.and_eq_true, decide_eq_true_eq]
  split_ifs with h1 h2 h3
  · simp [no_intersection, h1]
  · simp [no_intersection, h2]
  · exact ⟨fun _ => ⟨h1, h2⟩, fun _ => rfl⟩
  · exact ⟨fun _ => ⟨h1, h2⟩, fun _ => rfl⟩

/-- The flag `intersected` is `0` or `1`. -/
theorem rsi_intersected_cases (sqrt : K → K) (ray : ray K) (sphere : sphere K) :
    (ray_sphere_intersection sqrt ray sphere).intersected = 0 ∨
      (ray_sphere_intersection sqrt ray sphere).intersected = 1 := by
  unfold ray_sphere_intersection
  simp only [Bool.and_eq_true, decide_eq_true_eq]
  split_ifs <;> simp [no_intersection]

/-- On a hit, the distance is the selected root and the point is `origin + direction * t`. -/
theorem rsi_hit_values (sqrt : K → K) (ray : ray K) (sphere : sphere K)
    (h : (ray_sphere_intersection sqrt ray sphere).intersected = 1) :
    ∃ t : K,
      t = (if dotp (subv sphere.center ray.origin) (subv sphere.center ray.origin) >
              sphere.radius * sphere.radius
            then dotp (subv sphere.center ray.origin) ray.direction -
              sqrt (sphere.radius * sphere.radius -
                (dotp (subv sphere.center ray.origin) (subv sphere.center ray.origin) -
                  dotp (subv sphere.center ray.origin) ray.direction *
                    dotp (subv sphere.center ray.origin) ray.direction))
            else dotp (subv sphere.center ray.origin) ray.direction +
              sqrt (sphere.radius * sphere.radius -
                (dotp (subv sphere.center ray.origin) (subv sphere.center ray.origin) -
                  dotp (subv sphere.center ray.origin) ray.direction *
                    dotp (subv sphere.center ray.origin) ray.direction))) ∧
      (ray_sphere_intersection sqrt ray sphere).distance = (t : K) ∧
      (ray_sphere_intersection sqrt ray sphere).point =
        addv ray.origin (mulv ray.direction t) := by
  revert h
  unfold ray_sphere_intersection
  simp only [Bool.and_eq_true, decide_eq_true_eq]
  split_ifs with h1 h2 h3 <;> simp [no_intersection]

/-! ## Scene intersection: the loop invariant -/

/-- An element of `l ++ [a]` at index `j` is an element of `l` at index `j`, or it is `a`
at index `l.length`. -/
theorem getElem?_concat_cases {α : Type} (l : List α) (a o : α) (j : Nat)
    (h : (l ++ [a])[j]? = some o) :
    (j < l.length ∧ l[j]? = some o) ∨ (j = l.length ∧ o = a) := by
  by_cases hj : j < l.length
  · left
    rw [List.getElem?_append_left hj] at h
    exact ⟨hj, h⟩
  · right
    have hle : l.length ≤ j := not_lt.mp hj
    rw [List.getElem?_append_right hle] at h
    obtain ⟨hlt, heq⟩ := List.getElem?_eq_some.mp h
    simp only [List.length_singleton] at hlt
    have hj0 : j - l.length = 0 := by omega
    refine ⟨by omega, ?_⟩
    simp only [hj0, List.getElem_cons_zero] at heq
    exact heq.symm

/-- The scene intersection over no object is the initial value of `nearest`. -/
theorem rscene_nil (sqrt : K → K) (ray : ray K) (scene : scene K) :
    ray_scene_intersection sqrt ray { scene with objects := [] } =
      { intersection := { intersected := 0, distance := ⊤, point := zero_vector },
        object := zero_object } := rfl

/-- One more iteration of the loop of `ray_scene_intersection`. -/
theorem rscene_concat (sqrt : K → K) (ray : ray K) (scene : scene K) (l : List (object K))
    (a : object K) :
    ray_scene_intersection sqrt ray { scene with objects := l ++ [a] } =
      if (ray_sphere_intersection sqrt ray a.shape).intersected = 0 then
        ray_scene_intersection sqrt ray { scene with objects := l }
      else if (ray_sphere_intersection sqrt ray a.shape).distance <
          (ray_scene_intersection sqrt ray { scene with objects := l }).intersection.distance then
        { intersection := ray_sphere_intersection sqrt ray a.shape, object := a }
      else
        ray_scene_intersection sqrt ray { scene with objects := l } := by
  simp only [ray_scene_intersection, List.foldl_append, List.foldl_cons, List.foldl_nil]

/-- A hit of `ray_sphere_intersection` is at a finite distance. -/
theorem rsi_distance_lt_top (sqrt : K → K) (ray : ray K) (sphere : sphere K)
    (h : (ray_sphere_intersection sqrt ray sphere).intersected = 1) :
    (ray_sphere_intersection sqrt ray sphere).distance < ⊤ := by
  obtain ⟨t, _, hd, _⟩ := rsi_hit_values sqrt ray sphere h
  rw [hd]
  exact WithTop.coe_lt_top t

/-- The invariant of the loop of `ray_scene_intersection` after the objects `l`: either
nothing was hit and `nearest` is untouched, or `nearest` holds the hit of the object at
some index `i`, which is no farther than any hit and strictly nearer than the hits before
index `i`. -/
theorem rscene_invariant (sqrt : K → K) (ray : ray K) (scene : scene K) (l : List (object K)) :
    ((ray_scene_intersection sqrt ray { scene with objects := l }).intersection.intersected = 0 ∧
      (ray_scene_intersection sqrt ray { scene with objects := l }).intersection.distance = ⊤ ∧
      ∀ o ∈ l, (ray_sphere_intersection sqrt ray o.shape).intersected = 0) ∨
    (∃ i : Nat,
      l[i]? = some (ray_scene_intersection sqrt ray { scene with objects := l }).object ∧
      (ray_scene_intersection sqrt ray { scene with objects := l }).intersection =
        ray_sphere_intersection sqrt ray
          (ray_scene_intersection sqrt ray { scene with objects := l }).object.shape ∧
      (ray_scene_intersection sqrt ray { scene with objects := l }).intersection.intersected = 1 ∧
      (∀ (j : Nat) (o : object K), l[j]? = some o →
        (ray_sphere_intersection sqrt ray o.shape).intersected = 1 →
        (ray_scene_intersection sqrt ray { scene with objects := l }).intersection.distance ≤
          (ray_sphere_intersection sqrt ray o.shape).distance) ∧
      (∀ (j : Nat) (o : object K), j < i → l[j]? = some o →
        (ray_sphere_intersection sqrt ray o.shape).intersected = 1 →
        (ray_scene_intersection sqrt ray { scene with objects := l }).intersection.distance <
          (ray_sphere_intersection sqrt ray o.shape).distance)) := by
  induction l using List.reverseRecOn with
  | nil =>
    left
    rw [rscene_nil]
    exact ⟨rfl, rfl, fun o ho => absurd ho (List.not_mem_nil o)⟩
  | append_singleton l a ih =>
    rw [rscene_concat]
    rcases rsi_intersected_cases sqrt ray a.shape with ha | ha
    · -- the new object is not hit: `nearest` is unchanged
      rw [if_pos ha]
      rcases ih with ⟨h0, htop, hall⟩ | ⟨i, hi, heq, h1, hle, hlt⟩
      · left
        refine ⟨h0, htop, ?_⟩
        intro o ho
        rcases List.mem_append.mp ho with ho | ho
        · exact hall o ho
        · rw [List.mem_singleton.mp ho]; exact ha
      · right
        have hil : i < l.length := (List.getElem?_eq_some.mp hi).1
        refine ⟨i, ?_, heq, h1, ?_, ?_⟩
        · rw [List.getElem?_append_left hil]; exact hi
        · intro j o hj ho
          rcases getElem?_concat_cases l a o j hj with ⟨_, hj⟩ | ⟨_, hoa⟩
          · exact hle j o hj ho
          · rw [hoa, ha] at ho; exact absurd ho (by decide)
        · intro j o hji hj ho
          rcases getElem?_concat_cases l a o j hj with ⟨_, hj⟩ | ⟨_, hoa⟩
          · exact hlt j o hji hj ho
          · rw [hoa, ha] at ho; exact absurd ho (by decide)
    · -- the new object is hit
      have ha0 : ¬ (ray_sphere_intersection sqrt ray a.shape).intersected = 0 := by
        rw [ha]; decide
      rw [if_neg ha0]
      right
      rcases ih with ⟨h0, htop, hall⟩ | ⟨i, hi, heq, h1, hle, hlt⟩
      · -- first hit: it is nearer than `INFINITY`
        have hnear : (ray_sphere_intersection sqrt ray a.shape).distance <
            (ray_scene_intersection sqrt ray
              { scene with objects := l }).intersection.distance := by
          rw [htop]; exact rsi_distance_lt_top sqrt ray a.shape ha
        rw [if_pos hnear]
        refine ⟨l.length, List.getElem?_concat_length l a, rfl, ha, ?_, ?_⟩
        · intro j o hj ho
          rcases getElem?_concat_cases l a o j hj with ⟨_, hj⟩ | ⟨_, hoa⟩
          · have hmem : o ∈ l := List.mem_iff_getElem?.mpr ⟨j, hj⟩
            rw [hall o hmem] at ho; exact absurd ho (by decide)
          · rw [hoa]
        · intro j o hjl hj ho
          rcases getElem?_concat_cases l a o j hj with ⟨_, hj⟩ | ⟨hjeq, _⟩
          · have hmem : o ∈ l := List.mem_iff_getElem?.mpr ⟨j, hj⟩
            rw [hall o hmem] at ho; exact absurd ho (by decide)
          · exact absurd hjeq (Nat.ne_of_lt hjl)
      · by_cases hnear : (ray_sphere_intersection sqrt ray a.shape).distance <
            (ray_scene_intersection sqrt ray
              { scene with objects := l }).intersection.distance
        · -- strictly nearer: `nearest` becomes the new hit
          rw [if_pos hnear]
          refine ⟨l.length, List.getElem?_concat_length l a, rfl, ha, ?_, ?_⟩
          · intro j o hj ho
            rcases getElem?_concat_cases l a o j hj with ⟨_, hj⟩ | ⟨_, hoa⟩
            · exact le_trans (le_of_lt hnear) (hle j o hj ho)
            · rw [hoa]
          · intro j o hjl hj ho
            rcases getElem?_concat_cases l a o j hj with ⟨_, hj⟩ | ⟨hjeq, _⟩
            · exact lt_of_lt_of_le hnear (hle j o hj ho)
            · exact absurd hjeq (Nat.ne_of_lt hjl)
        · -- not strictly nearer: `nearest` is kept
          rw [if_neg hnear]
          have hil : i < l.length := (List.getElem?_eq_some.mp hi).1
          refine ⟨i, ?_, heq, h1, ?_, ?_⟩
          · rw [List.getElem?_append_left hil]; exact hi
          · intro j o hj ho
            rcases getElem?_concat_cases l a o j hj with ⟨_, hj⟩ | ⟨_, hoa⟩
            · exact hle j o hj ho
            · rw [hoa]; exact not_lt.mp hnear
          · intro j o hji hj ho
            rcases getElem?_concat_cases l a o j hj with ⟨_, hj⟩ | ⟨hjeq, _⟩
            · exact hlt j o hji hj ho
            · omega

/-! ## Vector algebra over the reals -/

/-- A vector has a non-negative dot product with itself. -/
theorem dotp_self_nonneg (a : vector ℝ) : 0 ≤ dotp a a := by
  unfold dotp
  nlinarith [mul_self_nonneg a.x, mul_self_nonneg a.y, mul_self_nonneg a.z]

/-- The square of the norm is the dot product of the vector with itself. -/
theorem norm_sq (a : vector ℝ) : norm Real.sqrt a ^ 2 = dotp a a := by
  unfold norm
  exact Real.sq_sqrt (dotp_self_nonneg a)

/-- A vector of norm one has dot product one with itself. -/
theorem dotp_self_of_norm_one (a : vector ℝ) (h : norm Real.sqrt a = 1) : dotp a a = 1 := by
  have h2 := norm_sq a
  rw [h] at h2
  linarith

/-- The squared distance from the point at parameter `t` to the sphere center, in terms of
the quantities `l`, `p` of the intersection routine. -/
theorem dotp_point_sub_center (o d c : vector ℝ) (t : ℝ) :
    dotp (subv (addv o (mulv d t)) c) (subv (addv o (mulv d t)) c) =
      t * t * dotp d d - 2 * t * dotp (subv c o) d + dotp (subv c o) (subv c o) := by
  simp only [dotp, subv, addv, mulv]
  ring

/-! ## C1 – C5: ray/sphere intersection -/

/-- C1: for a ray with unit direction, `ray_sphere_intersection` sets `intersected = 1`
exactly when some `t ≥ 0` has `|origin + t * direction - center|^2 = radius^2`. -/
theorem ray_sphere_intersection_hit_iff_meets (ray : ray ℝ) (sphere : sphere ℝ)
    (hd : norm Real.sqrt ray.direction = 1) :
    (ray_sphere_intersection Real.sqrt ray sphere).intersected = 1 ↔
      ∃ t : ℝ, 0 ≤ t ∧
        norm Real.sqrt (subv (addv ray.origin (mulv ray.direction t)) sphere.center) ^ 2 =
          sphere.radius ^ 2 := by
  have hdd := dotp_self_of_norm_one ray.direction hd
  rw [rsi_intersected_iff]
  simp only [norm_sq, dotp_point_sub_center, hdd]
  generalize dotp (subv sphere.center ray.origin) ray.direction = p
  generalize dotp (subv sphere.center ray.origin) (subv sphere.center ray.origin) = l2
  generalize sphere.radius = r
  constructor
  · rintro ⟨h1, h2⟩
    have hq0 : 0 ≤ Real.sqrt (r * r - (l2 - p * p)) := Real.sqrt_nonneg _
    have hq2 : Real.sqrt (r * r - (l2 - p * p)) ^ 2 = r * r - (l2 - p * p) :=
      Real.sq_sqrt (by linarith [not_lt.mp h2])
    generalize Real.sqrt (r * r - (l2 - p * p)) = q at hq0 hq2
    by_cases ho : l2 > r * r
    · have hp : 0 ≤ p := not_lt.mp (fun hlt => h1 ⟨hlt, ho⟩)
      refine ⟨p - q, ?_, ?_⟩
      · nlinarith
      · nlinarith
    · refine ⟨p + q, ?_, ?_⟩
      · nlinarith [not_lt.mp ho]
      · nlinarith
  · rintro ⟨t, ht, hE⟩
    constructor
    · rintro ⟨hp, ho⟩
      nlinarith [mul_self_nonneg t, mul_nonneg ht (le_of_lt (neg_pos.mpr hp))]
    · intro hm
      nlinarith [mul_self_nonneg (t - p)]

/-- C1, at a concrete ray and sphere: the ray from the origin along `z` meets the unit
sphere centered at `(0, 0, 5)`. -/
theorem ray_sphere_intersection_hit_iff_meets_witness :
    norm Real.sqrt (⟨0, 0, 1⟩ : vector ℝ) = 1 ∧
    ((ray_sphere_intersection Real.sqrt ⟨⟨0, 0, 0⟩, ⟨0, 0, 1⟩⟩ ⟨⟨0, 0, 5⟩, 1⟩).intersected = 1 ↔
      ∃ t : ℝ, 0 ≤ t ∧
        norm Real.sqrt (subv (addv ⟨0, 0, 0⟩ (mulv ⟨0, 0, 1⟩ t)) ⟨0, 0, 5⟩) ^ 2 =
          (1 : ℝ) ^ 2) :=
  ⟨by simp [norm, dotp],
   ray_sphere_intersection_hit_iff_meets ⟨⟨0, 0, 0⟩, ⟨0, 0, 1⟩⟩ ⟨⟨0, 0, 5⟩, 1⟩
     (by simp [norm, dotp])⟩

/-- C2: a ray whose origin is strictly outside the sphere and whose direction points away
from the center is reported as not intersecting. -/
theorem ray_sphere_intersection_outside_away (ray : ray ℝ) (sphere : sphere ℝ)
    (hout : norm Real.sqrt (subv sphere.center ray.origin) ^ 2 > sphere.radius ^ 2)
    (haway : dotp (subv sphere.center ray.origin) ray.direction < 0) :
    (ray_sphere_intersection Real.sqrt ray sphere).intersected = 0 := by
  rw [norm_sq] at hout
  rcases rsi_intersected_cases Real.sqrt ray sphere with h | h
  · exact h
  · exact absurd ⟨haway, by nlinarith⟩ ((rsi_intersected_iff Real.sqrt ray sphere).mp h).1

/-- C2, at a concrete ray and sphere: the ray from the origin along `-z` does not hit the
unit sphere centered at `(0, 0, 5)`. -/
theorem ray_sphere_intersection_outside_away_witness :
    (ray_sphere_intersection Real.sqrt ⟨⟨0, 0, 0⟩, ⟨0, 0, -1⟩⟩ ⟨⟨0, 0, 5⟩, 1⟩).intersected = 0 :=
  ray_sphere_intersection_outside_away ⟨⟨0, 0, 0⟩, ⟨0, 0, -1⟩⟩ ⟨⟨0, 0, 5⟩, 1⟩
    (by rw [norm_sq]; norm_num [dotp, subv])
    (by norm_num [dotp, subv])

/-- C3: a ray that starts at the center of a sphere of positive radius is reported as
intersecting, at a distance equal to the radius, whatever its direction. -/
theorem ray_sphere_intersection_from_center (ray : ray ℝ) (sphere : sphere ℝ)
    (hr : 0 < sphere.radius) (ho : ray.origin = sphere.center) :
    (ray_sphere_intersection Real.sqrt ray sphere).intersected = 1 ∧
      (ray_sphere_intersection Real.sqrt ray sphere).distance = (sphere.radius : ℝ) := by
  have hl : subv sphere.center ray.origin = zero_vector := by
    rw [ho]; simp [subv, zero_vector]
  have hp : dotp (subv sphere.center ray.origin) ray.direction = 0 := by
    rw [hl]; simp [dotp, zero_vector]
  have hl2 : dotp (subv sphere.center ray.origin) (subv sphere.center ray.origin) = 0 := by
    rw [hl]; simp [dotp, zero_vector]
  have hhit : (ray_sphere_intersection Real.sqrt ray sphere).intersected = 1 := by
    rw [rsi_intersected_iff, hp, hl2]
    constructor
    · rintro ⟨h, _⟩; exact lt_irrefl _ h
    · intro h; nlinarith
  refine ⟨hhit, ?_⟩
  obtain ⟨t, ht, hdist, _⟩ := rsi_hit_values Real.sqrt ray sphere hhit
  rw [hdist, ht, hp, hl2]
  have hnot : ¬ (0 > sphere.radius * sphere.radius) := by
    intro h; nlinarith
  rw [if_neg hnot]
  simp [Real.sqrt_mul_self (le_of_lt hr)]

/-- C3, at a concrete ray and sphere: from the center of the sphere of radius 2 at
`(1, 2, 3)` the hit is at distance 2. -/
theorem ray_sphere_intersection_from_center_witness :
    (ray_sphere_intersection Real.sqrt ⟨⟨1, 2, 3⟩, ⟨0, 1, 0⟩⟩ ⟨⟨1, 2, 3⟩, 2⟩).intersected = 1 ∧
      (ray_sphere_intersection Real.sqrt ⟨⟨1, 2, 3⟩, ⟨0, 1, 0⟩⟩ ⟨⟨1, 2, 3⟩, 2⟩).distance =
        ((2 : ℝ) : WithTop ℝ) :=
  ray_sphere_intersection_from_center ⟨⟨1, 2, 3⟩, ⟨0, 1, 0⟩⟩ ⟨⟨1, 2, 3⟩, 2⟩
    (by norm_num) rfl

/-- C4: a ray whose origin is strictly inside the sphere is reported as intersecting, at a
strictly positive distance; the test `m2 > r2` of the miss branch is false for it. -/
theorem ray_sphere_intersection_inside (ray : ray ℝ) (sphere : sphere ℝ)
    (hin : norm Real.sqrt (subv sphere.center ray.origin) ^ 2 < sphere.radius ^ 2) :
    (ray_sphere_intersection Real.sqrt ray sphere).intersected = 1 ∧
      (∃ t : ℝ, (ray_sphere_intersection Real.sqrt ray sphere).distance = (t : ℝ) ∧ 0 < t) ∧
      ¬ (dotp (subv sphere.center ray.origin) (subv sphere.center ray.origin) -
            dotp (subv sphere.center ray.origin) ray.direction *
              dotp (subv sphere.center ray.origin) ray.direction >
          sphere.radius * sphere.radius) := by
  rw [norm_sq] at hin
  have hmiss : ¬ (dotp (subv sphere.center ray.origin) (subv sphere.center ray.origin) -
            dotp (subv sphere.center ray.origin) ray.direction *
              dotp (subv sphere.center ray.origin) ray.direction >
          sphere.radius * sphere.radius) := by
    intro h
    nlinarith [mul_self_nonneg (dotp (subv sphere.center ray.origin) ray.direction)]
  have hhit : (ray_sphere_intersection Real.sqrt ray sphere).intersected = 1 := by
    rw [rsi_intersected_iff]
    refine ⟨?_, hmiss⟩
    rintro ⟨_, h⟩
    nlinarith
  refine ⟨hhit, ?_, hmiss⟩
  obtain ⟨t, ht, hdist, _⟩ := rsi_hit_values Real.sqrt ray sphere hhit
  refine ⟨t, hdist, ?_⟩
  have hnot : ¬ (dotp (subv sphere.center ray.origin) (subv sphere.center ray.origin) >
      sphere.radius * sphere.radius) := by
    intro h; nlinarith
  rw [if_neg hnot] at ht
  revert ht hin hmiss
  generalize dotp (subv sphere.center ray.origin) ray.direction = p
  generalize dotp (subv sphere.center ray.origin) (subv sphere.center ray.origin) = l2
  generalize sphere.radius = r
  intro hin hmiss ht
  have hq0 : 0 ≤ Real.sqrt (r * r - (l2 - p * p)) := Real.sqrt_nonneg _
  have hq2 : Real.sqrt (r * r - (l2 - p * p)) ^ 2 = r * r - (l2 - p * p) :=
    Real.sq_sqrt (by linarith [not_lt.mp hmiss])
  rw [ht]
  generalize Real.sqrt (r * r - (l2 - p * p)) = q at hq0 hq2
  by_contra hneg
  nlinarith [not_lt.mp hneg]

/-- C4, at a concrete ray and sphere: the origin `(0, 0, 0)` is inside the sphere of
radius 2 centered at `(0, 0, 1)`. -/
theorem ray_sphere_intersection_inside_witness :
    (ray_sphere_intersection Real.sqrt ⟨⟨0, 0, 0⟩, ⟨0, 0, -1⟩⟩ ⟨⟨0, 0, 1⟩, 2⟩).intersected = 1 ∧
      (∃ t : ℝ, (ray_sphere_intersection Real.sqrt ⟨⟨0, 0, 0⟩, ⟨0, 0, -1⟩⟩
          ⟨⟨0, 0, 1⟩, 2⟩).distance = (t : ℝ) ∧ 0 < t) ∧
      ¬ (dotp (subv (⟨0, 0, 1⟩ : vector ℝ) ⟨0, 0, 0⟩) (subv ⟨0, 0, 1⟩ ⟨0, 0, 0⟩) -
            dotp (subv (⟨0, 0, 1⟩ : vector ℝ) ⟨0, 0, 0⟩) ⟨0, 0, -1⟩ *
              dotp (subv (⟨0, 0, 1⟩ : vector ℝ) ⟨0, 0, 0⟩) ⟨0, 0, -1⟩ >
          (2 : ℝ) * 2) :=
  ray_sphere_intersection_inside ⟨⟨0, 0, 0⟩, ⟨0, 0, -1⟩⟩ ⟨⟨0, 0, 1⟩, 2⟩
    (by rw [norm_sq]; norm_num [dotp, subv])

/-- C5: whenever `ray_sphere_intersection` reports a hit, the reported distance is a real
`t ≥ 0` and the reported point is `origin + direction * t`. -/
theorem ray_sphere_intersection_distance_point (ray : ray ℝ) (sphere : sphere ℝ)
    (hhit : (ray_sphere_intersection Real.sqrt ray sphere).intersected = 1) :
    ∃ t : ℝ, (ray_sphere_intersection Real.sqrt ray sphere).distance = (t : ℝ) ∧ 0 ≤ t ∧
      (ray_sphere_intersection Real.sqrt ray sphere).point =
        addv ray.origin (mulv ray.direction t) := by
  obtain ⟨t, ht, hdist, hpoint⟩ := rsi_hit_values Real.sqrt ray sphere hhit
  refine ⟨t, hdist, ?_, hpoint⟩
  obtain ⟨h1, h2⟩ := (rsi_intersected_iff Real.sqrt ray sphere).mp hhit
  revert ht h1 h2
  generalize dotp (subv sphere.center ray.origin) ray.direction = p
  generalize dotp (subv sphere.center ray.origin) (subv sphere.center ray.origin) = l2
  generalize sphere.radius = r
  intro ht h1 h2
  have hq0 : 0 ≤ Real.sqrt (r * r - (l2 - p * p)) := Real.sqrt_nonneg _
  have hq2 : Real.sqrt (r * r - (l2 - p * p)) ^ 2 = r * r - (l2 - p * p) :=
    Real.sq_sqrt (by linarith [not_lt.mp h2])
  generalize Real.sqrt (r * r - (l2 - p * p)) = q at hq0 hq2 ht
  by_cases ho : l2 > r * r
  · have hp : 0 ≤ p := not_lt.mp (fun hlt => h1 ⟨hlt, ho⟩)
    rw [if_pos ho] at ht
    rw [ht]
    nlinarith
  · rw [if_neg ho] at ht
    rw [ht]
    nlinarith [not_lt.mp ho]

/-- C5, at a concrete ray and sphere: the hit of the ray from the origin along `z` with the
unit sphere centered at `(0, 0, 5)`. -/
theorem ray_sphere_intersection_distance_point_witness :
    ∃ t : ℝ, (ray_sphere_intersection Real.sqrt ⟨⟨0, 0, 0⟩, ⟨0, 0, 1⟩⟩
        ⟨⟨0, 0, 5⟩, 1⟩).distance = (t : ℝ) ∧ 0 ≤ t ∧
      (ray_sphere_intersection Real.sqrt ⟨⟨0, 0, 0⟩, ⟨0, 0, 1⟩⟩ ⟨⟨0, 0, 5⟩, 1⟩).point =
        addv ⟨0, 0, 0⟩ (mulv ⟨0, 0, 1⟩ t) :=
  ray_sphere_intersection_distance_point ⟨⟨0, 0, 0⟩, ⟨0, 0, 1⟩⟩ ⟨⟨0, 0, 5⟩, 1⟩
    (by
      rw [rsi_intersected_iff]
      norm_num [dotp, subv])

/-! ## C6 – C7: ray/scene intersection -/

/-- C6: `ray_scene_intersection` reports a hit exactly when `ray_sphere_intersection`
reports a hit for some object of the scene; in that case the reported distance is at most
the distance of every object that is hit, and the returned object is an object of the scene
that is hit at the reported distance. -/
theorem ray_scene_intersection_nearest (ray : ray ℝ) (scene : scene ℝ) :
    ((ray_scene_intersection Real.sqrt ray scene).intersection.intersected = 1 ↔
      ∃ o ∈ scene.objects, (ray_sphere_intersection Real.sqrt ray o.shape).intersected = 1) ∧
    ((ray_scene_intersection Real.sqrt ray scene).intersection.intersected = 1 →
      (∀ o ∈ scene.objects, (ray_sphere_intersection Real.sqrt ray o.shape).intersected = 1 →
        (ray_scene_intersection Real.sqrt ray scene).intersection.distance ≤
          (ray_sphere_intersection Real.sqrt ray o.shape).distance) ∧
      (ray_scene_intersection Real.sqrt ray scene).object ∈ scene.objects ∧
      (ray_sphere_intersection Real.sqrt ray
        (ray_scene_intersection Real.sqrt ray scene).object.shape).intersected = 1 ∧
      (ray_sphere_intersection Real.sqrt ray
        (ray_scene_intersection Real.sqrt ray scene).object.shape).distance =
          (ray_scene_intersection Real.sqrt ray scene).intersection.distance) := by
  have hinv := rscene_invariant Real.sqrt ray scene scene.objects
  change _ ∨ _ at hinv
  have hscene : ({ scene with objects := scene.objects } : Raytracer.scene ℝ) = scene := rfl
  rw [hscene] at hinv
  rcases hinv with ⟨h0, _, hall⟩ | ⟨i, hi, heq, h1, hle, _⟩
  · constructor
    · constructor
      · intro h; rw [h0] at h; exact absurd h (by decide)
      · rintro ⟨o, ho, hhit⟩
        rw [hall o ho] at hhit; exact absurd hhit (by decide)
    · intro h; rw [h0] at h; exact absurd h (by decide)
  · have hmem : (ray_scene_intersection Real.sqrt ray scene).object ∈ scene.objects :=
      List.mem_iff_getElem?.mpr ⟨i, hi⟩
    have hobj : (ray_sphere_intersection Real.sqrt ray
        (ray_scene_intersection Real.sqrt ray scene).object.shape).intersected = 1 := by
      rw [← heq]; exact h1
    constructor
    · exact ⟨fun _ => ⟨_, hmem, hobj⟩, fun _ => h1⟩
    · intro _
      refine ⟨?_, hmem, hobj, ?_⟩
      · intro o ho hhit
        obtain ⟨j, hj⟩ := List.mem_iff_getElem?.mp ho
        exact hle j o hj hhit
      · rw [← heq]

/-- C6, at a concrete scene: a far sphere at `(0, 0, 10)` followed by a near sphere at
`(0, 0, 5)`, seen from the origin along `z`. -/
theorem ray_scene_intersection_nearest_witness :
    ((ray_scene_intersection Real.sqrt ⟨⟨0, 0, 0⟩, ⟨0, 0, 1⟩⟩
        ⟨⟨0, 0, 0⟩, ⟨⟨0, 0, 0⟩, ⟨0, 0, 0⟩⟩, [],
          [⟨⟨⟨0, 0, 10⟩, 1⟩, ⟨⟨1, 0, 0⟩, ⟨0, 0, 0⟩, ⟨0, 0, 0⟩, 1⟩⟩,
           ⟨⟨⟨0, 0, 5⟩, 1⟩, ⟨⟨0, 1, 0⟩, ⟨0, 0, 0⟩, ⟨0, 0, 0⟩, 1⟩⟩]⟩).intersection.intersected
        = 1) ∧
    (ray_scene_intersection Real.sqrt ⟨⟨0, 0, 0⟩, ⟨0, 0, 1⟩⟩
        ⟨⟨0, 0, 0⟩, ⟨⟨0, 0, 0⟩, ⟨0, 0, 0⟩⟩, [],
          [⟨⟨⟨0, 0, 10⟩, 1⟩, ⟨⟨1, 0, 0⟩, ⟨0, 0, 0⟩, ⟨0, 0, 0⟩, 1⟩⟩,
           ⟨⟨⟨0, 0, 5⟩, 1⟩, ⟨⟨0, 1, 0⟩, ⟨0, 0, 0⟩, ⟨0, 0, 0⟩, 1⟩⟩]⟩).object ∈
      ([⟨⟨⟨0, 0, 10⟩, 1⟩, ⟨⟨1, 0, 0⟩, ⟨0, 0, 0⟩, ⟨0, 0, 0⟩, 1⟩⟩,
        ⟨⟨⟨0, 0, 5⟩, 1⟩, ⟨⟨0, 1, 0⟩, ⟨0, 0, 0⟩, ⟨0, 0, 0⟩, 1⟩⟩] : List (object ℝ)) := by
  have h := ray_scene_intersection_nearest ⟨⟨0, 0, 0⟩, ⟨0, 0, 1⟩⟩
    ⟨⟨0, 0, 0⟩, ⟨⟨0, 0, 0⟩, ⟨0, 0, 0⟩⟩, [],
      [⟨⟨⟨0, 0, 10⟩, 1⟩, ⟨⟨1, 0, 0⟩, ⟨0, 0, 0⟩, ⟨0, 0, 0⟩, 1⟩⟩,
       ⟨⟨⟨0, 0, 5⟩, 1⟩, ⟨⟨0, 1, 0⟩, ⟨0, 0, 0⟩, ⟨0, 0, 0⟩, 1⟩⟩]⟩
  have hhit := h.1.mpr ⟨⟨⟨⟨0, 0, 5⟩, 1⟩, ⟨⟨0, 1, 0⟩, ⟨0, 0, 0⟩, ⟨0, 0, 0⟩, 1⟩⟩,
    by simp, by rw [rsi_intersected_iff]; norm_num [dotp, subv]⟩
  exact ⟨hhit, (h.2 hhit).2.1⟩

/-- C7: if the object `o` at index `i` is hit at the minimum distance over the objects that
are hit, and no object at a smaller index is hit at that distance, then
`ray_scene_intersection` returns `o`. -/
theorem ray_scene_intersection_first_wins (ray : ray ℝ) (scene : scene ℝ) (i : Nat)
    (o : object ℝ) (hi : scene.objects[i]? = some o)
    (hhit : (ray_sphere_intersection Real.sqrt ray o.shape).intersected = 1)
    (hmin : ∀ o2 ∈ scene.objects,
      (ray_sphere_intersection Real.sqrt ray o2.shape).intersected = 1 →
      (ray_sphere_intersection Real.sqrt ray o.shape).distance ≤
        (ray_sphere_intersection Real.sqrt ray o2.shape).distance)
    (hfirst : ∀ (j : Nat) (o2 : object ℝ), j < i → scene.objects[j]? = some o2 →
      (ray_sphere_intersection Real.sqrt ray o2.shape).intersected = 1 →
      (ray_sphere_intersection Real.sqrt ray o2.shape).distance ≠
        (ray_sphere_intersection Real.sqrt ray o.shape).distance) :
    (ray_scene_intersection Real.sqrt ray scene).object = o := by
  have hinv := rscene_invariant Real.sqrt ray scene scene.objects
  have hscene : ({ scene with objects := scene.objects } : Raytracer.scene ℝ) = scene := rfl
  rw [hscene] at hinv
  have hmem : o ∈ scene.objects := List.mem_iff_getElem?.mpr ⟨i, hi⟩
  rcases hinv with ⟨_, _, hall⟩ | ⟨k, hk, heq, h1, hle, hlt⟩
  · rw [hall o hmem] at hhit; exact absurd hhit (by decide)
  · have hkmem : (ray_scene_intersection Real.sqrt ray scene).object ∈ scene.objects :=
      List.mem_iff_getElem?.mpr ⟨k, hk⟩
    have hkhit : (ray_sphere_intersection Real.sqrt ray
        (ray_scene_intersection Real.sqrt ray scene).object.shape).intersected = 1 := by
      rw [← heq]; exact h1
    have hdist : (ray_scene_intersection Real.sqrt ray scene).intersection.distance =
        (ray_sphere_intersection Real.sqrt ray o.shape).distance := by
      apply le_antisymm
      · exact hle i o hi hhit
      · rw [heq]; exact hmin _ hkmem hkhit
    rcases Nat.lt_trichotomy i k with hik | hik | hik
    · exact absurd (hlt i o hik hi hhit) (by rw [hdist]; exact lt_irrefl _)
    · rw [← hik, hi] at hk
      exact (Option.some.inj hk).symm
    · exact absurd (by rw [← heq]; exact hdist) (hfirst k _ hik hk hkhit)

/-- C7, at a concrete scene: a far sphere at `(0, 0, 10)` followed by two objects with the
same sphere at `(0, 0, 5)` and different materials; the first of the two is returned. -/
theorem ray_scene_intersection_first_wins_witness :
    (ray_scene_intersection Real.sqrt ⟨⟨0, 0, 0⟩, ⟨0, 0, 1⟩⟩
        ⟨⟨0, 0, 0⟩, ⟨⟨0, 0, 0⟩, ⟨0, 0, 0⟩⟩, [],
          [⟨⟨⟨0, 0, 10⟩, 1⟩, ⟨⟨1, 0, 0⟩, ⟨0, 0, 0⟩, ⟨0, 0, 0⟩, 1⟩⟩,
           ⟨⟨⟨0, 0, 5⟩, 1⟩, ⟨⟨0, 1, 0⟩, ⟨0, 0, 0⟩, ⟨0, 0, 0⟩, 1⟩⟩,
           ⟨⟨⟨0, 0, 5⟩, 1⟩, ⟨⟨0, 0, 1⟩, ⟨0, 0, 0⟩, ⟨0, 0, 0⟩, 1⟩⟩]⟩).object =
      (⟨⟨⟨0, 0, 5⟩, 1⟩, ⟨⟨0, 1, 0⟩, ⟨0, 0, 0⟩, ⟨0, 0, 0⟩, 1⟩⟩ : object ℝ) :=
  ray_scene_intersection_first_wins ⟨⟨0, 0, 0⟩, ⟨0, 0, 1⟩⟩
    ⟨⟨0, 0, 0⟩, ⟨⟨0, 0, 0⟩, ⟨0, 0, 0⟩⟩, [],
      [⟨⟨⟨0, 0, 10⟩, 1⟩, ⟨⟨1, 0, 0⟩, ⟨0, 0, 0⟩, ⟨0, 0, 0⟩, 1⟩⟩,
       ⟨⟨⟨0, 0, 5⟩, 1⟩, ⟨⟨0, 1, 0⟩, ⟨0, 0, 0⟩, ⟨0, 0, 0⟩, 1⟩⟩,
       ⟨⟨⟨0, 0, 5⟩, 1⟩, ⟨⟨0, 0, 1⟩, ⟨0, 0, 0⟩, ⟨0, 0, 0⟩, 1⟩⟩]⟩
    1 ⟨⟨⟨0, 0, 5⟩, 1⟩, ⟨⟨0, 1, 0⟩, ⟨0, 0, 0⟩, ⟨0, 0, 0⟩, 1⟩⟩ rfl
    (by rw [rsi_intersected_iff]; norm_num [dotp, subv])
    (by
      intro o2 ho2 _
      simp only [List.mem_cons, List.mem_singleton, List.not_mem_nil, or_false] at ho2
      rcases ho2 with rfl | rfl | rfl
      · norm_num [ray_sphere_intersection, dotp, subv]
        exact_mod_cast (show (4 : ℝ) ≤ 9 by norm_num)
      · exact le_refl _
      · exact le_refl _)
    (by
      intro j o2 hj ho2 _
      have hj0 : j = 0 := by omega
      subst hj0
      simp only [List.getElem?_cons_zero, Option.some.injEq] at ho2
      subst ho2
      norm_num [ray_sphere_intersection, dotp, subv])

/-! ## C8 – C9: reflection and normalization -/

/-- C8: reflecting twice about a unit-length normal gives back the vector. -/
theorem reflect_reflect (v n : vector ℝ) (hn : norm Real.sqrt n = 1) :
    reflect (reflect v n) n = v := by
  have hnn := dotp_self_of_norm_one n hn
  obtain ⟨vx, vy, vz⟩ := v
  obtain ⟨nx, ny, nz⟩ := n
  simp only [dotp] at hnn
  simp only [reflect, dotp, mulv, subv, vector.mk.injEq]
  refine ⟨?_, ?_, ?_⟩
  · linear_combination (4 * nx * (vx * nx + vy * ny + vz * nz)) * hnn
  · linear_combination (4 * ny * (vx * nx + vy * ny + vz * nz)) * hnn
  · linear_combination (4 * nz * (vx * nx + vy * ny + vz * nz)) * hnn

/-- C8, at a concrete vector and normal: reflecting `(1, 2, 3)` twice about `(0, 1, 0)`. -/
theorem reflect_reflect_witness :
    reflect (reflect (⟨1, 2, 3⟩ : vector ℝ) ⟨0, 1, 0⟩) ⟨0, 1, 0⟩ = ⟨1, 2, 3⟩ :=
  reflect_reflect ⟨1, 2, 3⟩ ⟨0, 1, 0⟩ (by simp [norm, dotp])

/-- C9: the normalized form of a non-zero vector has norm one. -/
theorem norm_normalize (v : vector ℝ) (hv : v ≠ zero_vector) :
    norm Real.sqrt (normalize Real.sqrt v) = 1 := by
  have hpos : 0 < dotp v v := by
    rcases lt_or_eq_of_le (dotp_self_nonneg v) with h | h
    · exact h
    · exfalso
      apply hv
      obtain ⟨x, y, z⟩ := v
      simp only [dotp] at h
      have hx : x = 0 := by nlinarith [mul_self_nonneg x, mul_self_nonneg y, mul_self_nonneg z]
      have hy : y = 0 := by nlinarith [mul_self_nonneg x, mul_self_nonneg y, mul_self_nonneg z]
      have hz : z = 0 := by nlinarith [mul_self_nonneg x, mul_self_nonneg y, mul_self_nonneg z]
      simp [zero_vector, hx, hy, hz]
  have hs : 0 < Real.sqrt (dotp v v) := Real.sqrt_pos.mpr hpos
  have hs2 : Real.sqrt (dotp v v) * Real.sqrt (dotp v v) = dotp v v :=
    Real.mul_self_sqrt (le_of_lt hpos)
  have hone : dotp (divv v (Real.sqrt (dotp v v))) (divv v (Real.sqrt (dotp v v))) = 1 := by
    have hne : Real.sqrt (dotp v v) ≠ 0 := ne_of_gt hs
    have hexp : dotp (divv v (Real.sqrt (dotp v v))) (divv v (Real.sqrt (dotp v v))) =
        dotp v v / (Real.sqrt (dotp v v) * Real.sqrt (dotp v v)) := by
      simp only [dotp, divv]
      field_simp
    rw [hexp, hs2]
    exact div_self (ne_of_gt hpos)
  unfold normalize norm
  rw [hone]
  exact Real.sqrt_one

/-- C9, at a concrete vector: the normalized form of `(3, 4, 0)` has norm one. -/
theorem norm_normalize_witness :
    norm Real.sqrt (normalize Real.sqrt (⟨3, 4, 0⟩ : vector ℝ)) = 1 :=
  norm_normalize ⟨3, 4, 0⟩ (by simp [zero_vector])

/-! ## C10: the path integrator at depth 0 -/

/-- A fold that skips the elements satisfying `c` and adds `f it` for the others is the
left-to-right sum of `f` over the elements that do not satisfy `c`. -/
theorem foldl_skip_eq_filter_map {α : Type} (c : α → Prop) [DecidablePred c]
    (f : α → vector K) (l : List α) (init : vector K) :
    l.foldl (fun illum it => if c it then illum else addv illum (f it)) init =
      ((l.filter (fun it => decide (¬ c it))).map f).foldl addv init := by
  induction l generalizing init with
  | nil => rfl
  | cons a l ih =>
    by_cases hc : c a
    · simp [List.foldl_cons, List.filter_cons, hc, ih]
    · simp [List.foldl_cons, List.filter_cons, hc, ih]

/-- With a negative depth `ray_tracing` returns the background gradient. -/
theorem ray_tracing_of_neg (sqrt : K → K) (powf : K → K → K) (ray : ray K) (scene : scene K)
    (depth : Int) (h : depth < 0) :
    ray_tracing sqrt powf ray scene depth =
      linear_interpolation scene.background |ray.direction.y| := by
  rw [ray_tracing]
  simp only [h, true_or, dite_true]

/-- With a non-negative depth and a hit, `ray_tracing` is the direct illumination plus the
attenuated radiance of the reflected ray at `depth - 1`. -/
theorem ray_tracing_of_hit (sqrt : K → K) (powf : K → K → K) (ray : ray K) (scene : scene K)
    (depth : Int) (hd : 0 ≤ depth)
    (hhit : (ray_scene_intersection sqrt ray scene).intersection.intersected ≠ 0) :
    ray_tracing sqrt powf ray scene depth =
      addv
        (direct_illumination sqrt powf scene
          (budge (ray_scene_intersection sqrt ray scene).intersection.point
            (sphere_normal sqrt (ray_scene_intersection sqrt ray scene).object.shape
              (ray_scene_intersection sqrt ray scene).intersection.point))
          (mulv ray.direction (-1))
          (sphere_normal sqrt (ray_scene_intersection sqrt ray scene).object.shape
            (ray_scene_intersection sqrt ray scene).intersection.point)
          (ray_scene_intersection sqrt ray scene).object.material)
        (hadp
          (ray_tracing sqrt powf
            { origin := budge (ray_scene_intersection sqrt ray scene).intersection.point
                (sphere_normal sqrt (ray_scene_intersection sqrt ray scene).object.shape
                  (ray_scene_intersection sqrt ray scene).intersection.point),
              direction := reflect (mulv ray.direction (-1))
                (sphere_normal sqrt (ray_scene_intersection sqrt ray scene).object.shape
                  (ray_scene_intersection sqrt ray scene).intersection.point) }
            scene (depth - 1))
          (ray_scene_intersection sqrt ray scene).object.material.reflection) := by
  rw [ray_tracing]
  have hcond : ¬ (depth < 0 ∨
      (ray_scene_intersection sqrt ray scene).intersection.intersected = 0) := by
    rintro (h | h)
    · omega
    · exact hhit h
  simp only [hcond, dite_false]

/-- C10: for a ray that hits an object, `ray_tracing` at depth 0 is the sum of the
`blinn_phong` contributions of the lights that are not blocked at the bumped point, plus
the background gradient at `|r.y|`, `r = reflect(-ray.direction, n)`, multiplied
element-wise by the reflection of the material; nothing is assumed of the reflected ray. -/
theorem ray_tracing_depth_zero (powf : ℝ → ℝ → ℝ) (ray : ray ℝ) (scene : scene ℝ)
    (hhit : (ray_scene_intersection Real.sqrt ray scene).intersection.intersected = 1) :
    let intx := ray_scene_intersection Real.sqrt ray scene
    let n := sphere_normal Real.sqrt intx.object.shape intx.intersection.point
    let point := budge intx.intersection.point n
    let view : vector ℝ := ⟨-ray.direction.x, -ray.direction.y, -ray.direction.z⟩
    let r := reflect view n
    let B := linear_interpolation scene.background |r.y|
    let direct :=
      ((scene.lights.filter
          (fun l => decide (is_light_blocked Real.sqrt scene point l = 0))).map
        (fun l => blinn_phong Real.sqrt powf (normalize Real.sqrt (subv l.origin point))
          l.intensity view n intx.object.material)).foldl addv zero_vector
    ray_tracing Real.sqrt powf ray scene 0 =
      addv direct (hadp B intx.object.material.reflection) := by
  intro intx n point view r B direct
  have hne : (ray_scene_intersection Real.sqrt ray scene).intersection.intersected ≠ 0 := by
    rw [hhit]; decide
  have hview : mulv ray.direction (-1) = view := by
    simp [mulv, view]
  rw [ray_tracing_of_hit Real.sqrt powf ray scene 0 (le_refl 0) hne,
    ray_tracing_of_neg Real.sqrt powf _ scene (0 - 1) (by decide), hview]
  unfold direct_illumination
  rw [foldl_skip_eq_filter_map]
  simp only [ne_eq, Decidable.not_not]

/-- C10, at a concrete scene: the unit sphere at `(0, 0, 5)` with a mirror-only material,
one light at `(0, 5, 0)`, seen from the origin along `z`. -/
theorem ray_tracing_depth_zero_witness :
    ∃ (r0 : ray ℝ) (s0 : scene ℝ),
      r0 = ⟨⟨0, 0, 0⟩, ⟨0, 0, 1⟩⟩ ∧
      s0 = ⟨⟨0, 0, 0⟩, ⟨⟨7 / 10, 8 / 10, 1⟩, ⟨2 / 10, 3 / 10, 1⟩⟩,
        [⟨⟨0, 5, 0⟩, ⟨1, 1, 1⟩⟩],
        [⟨⟨⟨0, 0, 5⟩, 1⟩, ⟨⟨0, 0, 0⟩, ⟨0, 0, 0⟩, ⟨1, 1, 1⟩, 32⟩⟩]⟩ ∧
      (ray_scene_intersection Real.sqrt r0 s0).intersection.intersected = 1 ∧
      ray_tracing Real.sqrt (fun x y => x ^ y) r0 s0 0 =
        addv
          (((s0.lights.filter
              (fun l => decide (is_light_blocked Real.sqrt s0
                (budge (ray_scene_intersection Real.sqrt r0 s0).intersection.point
                  (sphere_normal Real.sqrt (ray_scene_intersection Real.sqrt r0 s0).object.shape
                    (ray_scene_intersection Real.sqrt r0 s0).intersection.point)) l = 0))).map
            (fun l => blinn_phong Real.sqrt (fun x y => x ^ y)
              (normalize Real.sqrt (subv l.origin
                (budge (ray_scene_intersection Real.sqrt r0 s0).intersection.point
                  (sphere_normal Real.sqrt (ray_scene_intersection Real.sqrt r0 s0).object.shape
                    (ray_scene_intersection Real.sqrt r0 s0).intersection.point))))
              l.intensity ⟨-r0.direction.x, -r0.direction.y, -r0.direction.z⟩
              (sphere_normal Real.sqrt (ray_scene_intersection Real.sqrt r0 s0).object.shape
                (ray_scene_intersection Real.sqrt r0 s0).intersection.point)
              (ray_scene_intersection Real.sqrt r0 s0).object.material)).foldl addv zero_vector)
          (hadp
            (linear_interpolation s0.background
              |(reflect ⟨-r0.direction.x, -r0.direction.y, -r0.direction.z⟩
                (sphere_normal Real.sqrt (ray_scene_intersection Real.sqrt r0 s0).object.shape
                  (ray_scene_intersection Real.sqrt r0 s0).intersection.point)).y|)
            (ray_scene_intersection Real.sqrt r0 s0).object.material.reflection) := by
  have hhit : (ray_scene_intersection Real.sqrt (⟨⟨0, 0, 0⟩, ⟨0, 0, 1⟩⟩ : ray ℝ)
      ⟨⟨0, 0, 0⟩, ⟨⟨7 / 10, 8 / 10, 1⟩, ⟨2 / 10, 3 / 10, 1⟩⟩,
        [⟨⟨0, 5, 0⟩, ⟨1, 1, 1⟩⟩],
        [⟨⟨⟨0, 0, 5⟩, 1⟩, ⟨⟨0, 0, 0⟩, ⟨0, 0, 0⟩, ⟨1, 1, 1⟩, 32⟩⟩]⟩).intersection.intersected
        = 1 := by
    have h4 : (4 : WithTop ℝ) < ⊤ := by exact_mod_cast WithTop.coe_lt_top (4 : ℝ)
    norm_num [ray_scene_intersection, ray_sphere_intersection, dotp, subv, h4]
  exact ⟨_, _, rfl, rfl, hhit, ray_tracing_depth_zero (fun x y => x ^ y) _ _ hhit⟩

/-! ## C11, C12, C15: recursion of the path integrator -/

/-- Without a hit `ray_tracing` returns the background gradient. -/
theorem ray_tracing_of_miss (sqrt : K → K) (powf : K → K → K) (ray : ray K) (scene : scene K)
    (depth : Int)
    (h : (ray_scene_intersection sqrt ray scene).intersection.intersected = 0) :
    ray_tracing sqrt powf ray scene depth =
      linear_interpolation scene.background |ray.direction.y| := by
  rw [ray_tracing]
  simp only [h, or_true, dite_true]

/-- The recorded evaluation when the guard `depth < 0 || !intersected` holds: no recursive
call. -/
theorem ray_tracing_trace_of_stop (sqrt : K → K) (powf : K → K → K) (ray : ray K)
    (scene : scene K) (depth : Int)
    (h : depth < 0 ∨ (ray_scene_intersection sqrt ray scene).intersection.intersected = 0) :
    ray_tracing_trace sqrt powf ray scene depth =
      (linear_interpolation scene.background |ray.direction.y|, [depth]) := by
  rw [ray_tracing_trace]
  simp only [h, dite_true]

/-- The recorded evaluation when the guard fails: one recursive call, on the reflected ray
with `depth - 1`. -/
theorem ray_tracing_trace_of_hit (sqrt : K → K) (powf : K → K → K) (ray : ray K)
    (scene : scene K) (depth : Int) (hd : 0 ≤ depth)
    (hhit : (ray_scene_intersection sqrt ray scene).intersection.intersected ≠ 0) :
    ray_tracing_trace sqrt powf ray scene depth =
      (addv
        (direct_illumination sqrt powf scene
          (budge (ray_scene_intersection sqrt ray scene).intersection.point
            (sphere_normal sqrt (ray_scene_intersection sqrt ray scene).object.shape
              (ray_scene_intersection sqrt ray scene).intersection.point))
          (mulv ray.direction (-1))
          (sphere_normal sqrt (ray_scene_intersection sqrt ray scene).object.shape
            (ray_scene_intersection sqrt ray scene).intersection.point)
          (ray_scene_intersection sqrt ray scene).object.material)
        (hadp
          (ray_tracing_trace sqrt powf
            { origin := budge (ray_scene_intersection sqrt ray scene).intersection.point
                (sphere_normal sqrt (ray_scene_intersection sqrt ray scene).object.shape
                  (ray_scene_intersection sqrt ray scene).intersection.point),
              direction := reflect (mulv ray.direction (-1))
                (sphere_normal sqrt (ray_scene_intersection sqrt ray scene).object.shape
                  (ray_scene_intersection sqrt ray scene).intersection.point) }
            scene (depth - 1)).1
          (ray_scene_intersection sqrt ray scene).object.material.reflection),
       depth ::
        (ray_tracing_trace sqrt powf
          { origin := budge (ray_scene_intersection sqrt ray scene).intersection.point
              (sphere_normal sqrt (ray_scene_intersection sqrt ray scene).object.shape
                (ray_scene_intersection sqrt ray scene).intersection.point),
            direction := reflect (mulv ray.direction (-1))
              (sphere_normal sqrt (ray_scene_intersection sqrt ray scene).object.shape
                (ray_scene_intersection sqrt ray scene).intersection.point) }
          scene (depth - 1)).2) := by
  rw [ray_tracing_trace]
  have hcond : ¬ (depth < 0 ∨
      (ray_scene_intersection sqrt ray scene).intersection.intersected = 0) := by
    rintro (h | h)
    · omega
    · exact hhit h
  simp only [hcond, dite_false]

/-- The recorded evaluation computes the value of `ray_tracing`, records at most
`depth + 2` invocations, and every recorded depth is between `-1` and `depth`
(for `depth ≥ -1`). -/
theorem ray_tracing_trace_spec (sqrt : K → K) (powf : K → K → K) (scene : scene K) (n : Nat) :
    ∀ (ray : ray K) (depth : Int), depth < n →
      (ray_tracing_trace sqrt powf ray scene depth).1 = ray_tracing sqrt powf ray scene depth ∧
      (ray_tracing_trace sqrt powf ray scene depth).2.length ≤ n + 1 ∧
      (-1 ≤ depth → ∀ k ∈ (ray_tracing_trace sqrt powf ray scene depth).2,
        -1 ≤ k ∧ k ≤ depth) := by
  induction n with
  | zero =>
    intro ray depth hlt
    have hneg : depth < 0 := by exact_mod_cast hlt
    rw [ray_tracing_trace_of_stop sqrt powf ray scene depth (Or.inl hneg),
      ray_tracing_of_neg sqrt powf ray scene depth hneg]
    refine ⟨rfl, by simp, ?_⟩
    intro hge k hk
    rw [List.mem_singleton.mp hk]
    exact ⟨hge, le_refl _⟩
  | succ n ih =>
    intro ray depth hlt
    by_cases hstop : depth < 0 ∨
        (ray_scene_intersection sqrt ray scene).intersection.intersected = 0
    · rw [ray_tracing_trace_of_stop sqrt powf ray scene depth hstop]
      refine ⟨?_, by simp, ?_⟩
      · rcases hstop with h | h
        · rw [ray_tracing_of_neg sqrt powf ray scene depth h]
        · rw [ray_tracing_of_miss sqrt powf ray scene depth h]
      · intro hge k hk
        rw [List.mem_singleton.mp hk]
        exact ⟨hge, le_refl _⟩
    · have hd : 0 ≤ depth := not_lt.mp (fun h => hstop (Or.inl h))
      have hhit : (ray_scene_intersection sqrt ray scene).intersection.intersected ≠ 0 :=
        fun h => hstop (Or.inr h)
      have hlt2 : depth - 1 < (n : Int) := by push_cast at hlt; omega
      rw [ray_tracing_trace_of_hit sqrt powf ray scene depth hd hhit,
        ray_tracing_of_hit sqrt powf ray scene depth hd hhit]
      obtain ⟨h1, h2, h3⟩ := ih
        { origin := budge (ray_scene_intersection sqrt ray scene).intersection.point
            (sphere_normal sqrt (ray_scene_intersection sqrt ray scene).object.shape
              (ray_scene_intersection sqrt ray scene).intersection.point),
          direction := reflect (mulv ray.direction (-1))
            (sphere_normal sqrt (ray_scene_intersection sqrt ray scene).object.shape
              (ray_scene_intersection sqrt ray scene).intersection.point) }
        (depth - 1) hlt2
      refine ⟨?_, ?_, ?_⟩
      · simp only [h1]
      · simp only [List.length_cons]
        omega
      · intro _ k hk
        rcases List.mem_cons.mp hk with hk | hk
        · rw [hk]; exact ⟨by omega, le_refl _⟩
        · obtain ⟨hk1, hk2⟩ := h3 (by omega) k hk
          exact ⟨hk1, by omega⟩

/-- C11: for `d ≥ 0` the evaluation of `ray_tracing(ray, scene, d)` terminates (the recorded
evaluation is total and returns the value of `ray_tracing`) and makes at most `d + 1`
recursive calls: the recorded invocations after the outermost one. -/
theorem ray_tracing_recursive_calls (powf : ℝ → ℝ → ℝ) (ray : ray ℝ) (scene : scene ℝ)
    (d : Int) (hd : 0 ≤ d) :
    (ray_tracing_trace Real.sqrt powf ray scene d).1 = ray_tracing Real.sqrt powf ray scene d ∧
    (((ray_tracing_trace Real.sqrt powf ray scene d).2.tail.length : Nat) : Int) ≤ d + 1 := by
  have hlt : d < ((d.toNat + 1 : Nat) : Int) := by push_cast; omega
  obtain ⟨h1, h2, _⟩ := ray_tracing_trace_spec Real.sqrt powf scene (d.toNat + 1) ray d hlt
  refine ⟨h1, ?_⟩
  rw [List.length_tail]
  omega

/-- The ray from the origin along `z` hits the scene that holds the unit sphere centered at
`(0, 0, 5)`. -/
theorem unit_sphere_scene_hit :
    (ray_scene_intersection Real.sqrt (⟨⟨0, 0, 0⟩, ⟨0, 0, 1⟩⟩ : ray ℝ)
      ⟨⟨0, 0, 0⟩, ⟨⟨7 / 10, 8 / 10, 1⟩, ⟨2 / 10, 3 / 10, 1⟩⟩, [⟨⟨0, 5, 0⟩, ⟨1, 1, 1⟩⟩],
        [⟨⟨⟨0, 0, 5⟩, 1⟩, ⟨⟨0, 0, 0⟩, ⟨0, 0, 0⟩, ⟨1, 1, 1⟩, 32⟩⟩]⟩).intersection.intersected = 1 := by
  have h4 : (4 : WithTop ℝ) < ⊤ := by exact_mod_cast WithTop.coe_lt_top (4 : ℝ)
  norm_num [ray_scene_intersection, ray_sphere_intersection, dotp, subv, h4]

/-- C11, at a concrete scene and depth 8: the unit sphere at `(0, 0, 5)` seen from the origin
along `z`. -/
theorem ray_tracing_recursive_calls_witness :
    (ray_tracing_trace Real.sqrt (fun x y => x ^ y) (⟨⟨0, 0, 0⟩, ⟨0, 0, 1⟩⟩ : ray ℝ)
      ⟨⟨0, 0, 0⟩, ⟨⟨7 / 10, 8 / 10, 1⟩, ⟨2 / 10, 3 / 10, 1⟩⟩, [⟨⟨0, 5, 0⟩, ⟨1, 1, 1⟩⟩],
        [⟨⟨⟨0, 0, 5⟩, 1⟩, ⟨⟨0, 0, 0⟩, ⟨0, 0, 0⟩, ⟨1, 1, 1⟩, 32⟩⟩]⟩ 8).1 =
      ray_tracing Real.sqrt (fun x y => x ^ y) (⟨⟨0, 0, 0⟩, ⟨0, 0, 1⟩⟩ : ray ℝ)
      ⟨⟨0, 0, 0⟩, ⟨⟨7 / 10, 8 / 10, 1⟩, ⟨2 / 10, 3 / 10, 1⟩⟩, [⟨⟨0, 5, 0⟩, ⟨1, 1, 1⟩⟩],
        [⟨⟨⟨0, 0, 5⟩, 1⟩, ⟨⟨0, 0, 0⟩, ⟨0, 0, 0⟩, ⟨1, 1, 1⟩, 32⟩⟩]⟩ 8 ∧
    (((ray_tracing_trace Real.sqrt (fun x y => x ^ y) (⟨⟨0, 0, 0⟩, ⟨0, 0, 1⟩⟩ : ray ℝ)
      ⟨⟨0, 0, 0⟩, ⟨⟨7 / 10, 8 / 10, 1⟩, ⟨2 / 10, 3 / 10, 1⟩⟩, [⟨⟨0, 5, 0⟩, ⟨1, 1, 1⟩⟩],
        [⟨⟨⟨0, 0, 5⟩, 1⟩, ⟨⟨0, 0, 0⟩, ⟨0, 0, 0⟩, ⟨1, 1, 1⟩, 32⟩⟩]⟩ 8).2.tail.length : Nat) : Int) ≤ 8 + 1 :=
  ray_tracing_recursive_calls (fun x y => x ^ y) ⟨⟨0, 0, 0⟩, ⟨0, 0, 1⟩⟩
    ⟨⟨0, 0, 0⟩, ⟨⟨7 / 10, 8 / 10, 1⟩, ⟨2 / 10, 3 / 10, 1⟩⟩, [⟨⟨0, 5, 0⟩, ⟨1, 1, 1⟩⟩],
        [⟨⟨⟨0, 0, 5⟩, 1⟩, ⟨⟨0, 0, 0⟩, ⟨0, 0, 0⟩, ⟨1, 1, 1⟩, 32⟩⟩]⟩ 8 (by decide)

/-- C12 fails as stated: at depth 0, for a ray that hits the unit sphere at `(0, 0, 5)`, the
invocations reached have depths `0` and `-1`, so not every depth is non-negative. -/
theorem ray_tracing_depth_negative_reached :
    (ray_tracing_trace Real.sqrt (fun x y => x ^ y) (⟨⟨0, 0, 0⟩, ⟨0, 0, 1⟩⟩ : ray ℝ)
      ⟨⟨0, 0, 0⟩, ⟨⟨7 / 10, 8 / 10, 1⟩, ⟨2 / 10, 3 / 10, 1⟩⟩, [⟨⟨0, 5, 0⟩, ⟨1, 1, 1⟩⟩],
        [⟨⟨⟨0, 0, 5⟩, 1⟩, ⟨⟨0, 0, 0⟩, ⟨0, 0, 0⟩, ⟨1, 1, 1⟩, 32⟩⟩]⟩ 0).2 = [0, -1] ∧
    ¬ (∀ k ∈ (ray_tracing_trace Real.sqrt (fun x y => x ^ y) (⟨⟨0, 0, 0⟩, ⟨0, 0, 1⟩⟩ : ray ℝ)
      ⟨⟨0, 0, 0⟩, ⟨⟨7 / 10, 8 / 10, 1⟩, ⟨2 / 10, 3 / 10, 1⟩⟩, [⟨⟨0, 5, 0⟩, ⟨1, 1, 1⟩⟩],
        [⟨⟨⟨0, 0, 5⟩, 1⟩, ⟨⟨0, 0, 0⟩, ⟨0, 0, 0⟩, ⟨1, 1, 1⟩, 32⟩⟩]⟩ 0).2, 0 ≤ k) := by
  have hne : (ray_scene_intersection Real.sqrt (⟨⟨0, 0, 0⟩, ⟨0, 0, 1⟩⟩ : ray ℝ)
      ⟨⟨0, 0, 0⟩, ⟨⟨7 / 10, 8 / 10, 1⟩, ⟨2 / 10, 3 / 10, 1⟩⟩, [⟨⟨0, 5, 0⟩, ⟨1, 1, 1⟩⟩],
        [⟨⟨⟨0, 0, 5⟩, 1⟩, ⟨⟨0, 0, 0⟩, ⟨0, 0, 0⟩, ⟨1, 1, 1⟩, 32⟩⟩]⟩).intersection.intersected ≠ 0 := by
    rw [unit_sphere_scene_hit]; decide
  have htrace : (ray_tracing_trace Real.sqrt (fun x y => x ^ y)
      (⟨⟨0, 0, 0⟩, ⟨0, 0, 1⟩⟩ : ray ℝ)
      ⟨⟨0, 0, 0⟩, ⟨⟨7 / 10, 8 / 10, 1⟩, ⟨2 / 10, 3 / 10, 1⟩⟩, [⟨⟨0, 5, 0⟩, ⟨1, 1, 1⟩⟩],
        [⟨⟨⟨0, 0, 5⟩, 1⟩, ⟨⟨0, 0, 0⟩, ⟨0, 0, 0⟩, ⟨1, 1, 1⟩, 32⟩⟩]⟩ 0).2 = [0, -1] := by
    rw [ray_tracing_trace_of_hit Real.sqrt _ _ _ 0 (le_refl 0) hne,
      ray_tracing_trace_of_stop Real.sqrt _ _ _ (0 - 1) (Or.inl (by decide))]
    rfl
  refine ⟨htrace, ?_⟩
  rw [htrace]
  intro h
  exact absurd (h (-1) (by simp)) (by decide)

/-- C12, amended: for `d ≥ 0`, the depth of every invocation reached during the evaluation
of `ray_tracing(ray, scene, d)` is at least `-1` and at most `d`. -/
theorem ray_tracing_depth_ge_neg_one (powf : ℝ → ℝ → ℝ) (ray : ray ℝ) (scene : scene ℝ)
    (d : Int) (hd : 0 ≤ d) :
    ∀ k ∈ (ray_tracing_trace Real.sqrt powf ray scene d).2, -1 ≤ k ∧ k ≤ d := by
  have hlt : d < ((d.toNat + 1 : Nat) : Int) := by push_cast; omega
  exact (ray_tracing_trace_spec Real.sqrt powf scene (d.toNat + 1) ray d hlt).2.2 (by omega)

/-- C12 amended, at a concrete scene and depth 8: every recorded depth is between `-1`
and `8`. -/
theorem ray_tracing_depth_ge_neg_one_witness :
    (ray_tracing_trace Real.sqrt (fun x y => x ^ y) (⟨⟨0, 0, 0⟩, ⟨0, 0, 1⟩⟩ : ray ℝ)
      ⟨⟨0, 0, 0⟩, ⟨⟨7 / 10, 8 / 10, 1⟩, ⟨2 / 10, 3 / 10, 1⟩⟩, [⟨⟨0, 5, 0⟩, ⟨1, 1, 1⟩⟩],
        [⟨⟨⟨0, 0, 5⟩, 1⟩, ⟨⟨0, 0, 0⟩, ⟨0, 0, 0⟩, ⟨1, 1, 1⟩, 32⟩⟩]⟩ 8).2.all (fun k => decide (-1 ≤ k ∧ k ≤ 8)) = true :=
  List.all_eq_true.mpr (fun k hk => decide_eq_true
    (ray_tracing_depth_ge_neg_one (fun x y => x ^ y) ⟨⟨0, 0, 0⟩, ⟨0, 0, 1⟩⟩
      ⟨⟨0, 0, 0⟩, ⟨⟨7 / 10, 8 / 10, 1⟩, ⟨2 / 10, 3 / 10, 1⟩⟩, [⟨⟨0, 5, 0⟩, ⟨1, 1, 1⟩⟩],
        [⟨⟨⟨0, 0, 5⟩, 1⟩, ⟨⟨0, 0, 0⟩, ⟨0, 0, 0⟩, ⟨1, 1, 1⟩, 32⟩⟩]⟩ 8 (by decide) k hk))

/-- When no object of the scene is hit, `ray_scene_intersection` reports no hit. -/
theorem rscene_miss_of_all_miss (sqrt : K → K) (ray : ray K) (scene : scene K)
    (h : ∀ o ∈ scene.objects, (ray_sphere_intersection sqrt ray o.shape).intersected = 0) :
    (ray_scene_intersection sqrt ray scene).intersection.intersected = 0 := by
  have hinv := rscene_invariant sqrt ray scene scene.objects
  have hscene : ({ scene with objects := scene.objects } : Raytracer.scene K) = scene := rfl
  rw [hscene] at hinv
  rcases hinv with ⟨h0, _, _⟩ | ⟨i, hi, heq, h1, _, _⟩
  · exact h0
  · have hmem : (ray_scene_intersection sqrt ray scene).object ∈ scene.objects :=
      List.mem_iff_getElem?.mpr ⟨i, hi⟩
    have h2 := h _ hmem
    rw [← heq, h1] at h2
    exact absurd h2 (by decide)

/-- C15: if `depth < 0`, or if the ray hits no object of the scene, `ray_tracing` returns
`linear_interpolation(scene.background, |ray.direction.y|)`, which is
`start * (1 - |direction.y|) + end * |direction.y|` channel by channel; the case `depth < 0`
does not depend on whether an object is hit. -/
theorem ray_tracing_background (powf : ℝ → ℝ → ℝ) (ray : ray ℝ) (scene : scene ℝ)
    (depth : Int)
    (h : depth < 0 ∨
      ∀ o ∈ scene.objects, (ray_sphere_intersection Real.sqrt ray o.shape).intersected = 0) :
    ray_tracing Real.sqrt powf ray scene depth =
      linear_interpolation scene.background |ray.direction.y| ∧
    linear_interpolation scene.background |ray.direction.y| =
      { x := scene.background.start.x * (1 - |ray.direction.y|) +
            scene.background.end_.x * |ray.direction.y|,
        y := scene.background.start.y * (1 - |ray.direction.y|) +
            scene.background.end_.y * |ray.direction.y|,
        z := scene.background.start.z * (1 - |ray.direction.y|) +
            scene.background.end_.z * |ray.direction.y| } := by
  constructor
  · rcases h with h | h
    · exact ray_tracing_of_neg Real.sqrt powf ray scene depth h
    · exact ray_tracing_of_miss Real.sqrt powf ray scene depth
        (rscene_miss_of_all_miss Real.sqrt ray scene h)
  · rfl

/-- C15, at a concrete scene with depth `-1`: the ray hits the unit sphere at `(0, 0, 5)` and
the background `(7/10, 8/10, 1)` is returned all the same. -/
theorem ray_tracing_background_witness :
    (ray_scene_intersection Real.sqrt (⟨⟨0, 0, 0⟩, ⟨0, 0, 1⟩⟩ : ray ℝ)
      ⟨⟨0, 0, 0⟩, ⟨⟨7 / 10, 8 / 10, 1⟩, ⟨2 / 10, 3 / 10, 1⟩⟩, [⟨⟨0, 5, 0⟩, ⟨1, 1, 1⟩⟩],
        [⟨⟨⟨0, 0, 5⟩, 1⟩, ⟨⟨0, 0, 0⟩, ⟨0, 0, 0⟩, ⟨1, 1, 1⟩, 32⟩⟩]⟩).intersection.intersected = 1 ∧
    ray_tracing Real.sqrt (fun x y => x ^ y) (⟨⟨0, 0, 0⟩, ⟨0, 0, 1⟩⟩ : ray ℝ)
      ⟨⟨0, 0, 0⟩, ⟨⟨7 / 10, 8 / 10, 1⟩, ⟨2 / 10, 3 / 10, 1⟩⟩, [⟨⟨0, 5, 0⟩, ⟨1, 1, 1⟩⟩],
        [⟨⟨⟨0, 0, 5⟩, 1⟩, ⟨⟨0, 0, 0⟩, ⟨0, 0, 0⟩, ⟨1, 1, 1⟩, 32⟩⟩]⟩ (-1) = ⟨7 / 10, 8 / 10, 1⟩ := by
  refine ⟨unit_sphere_scene_hit, ?_⟩
  rw [(ray_tracing_background (fun x y => x ^ y) ⟨⟨0, 0, 0⟩, ⟨0, 0, 1⟩⟩
    ⟨⟨0, 0, 0⟩, ⟨⟨7 / 10, 8 / 10, 1⟩, ⟨2 / 10, 3 / 10, 1⟩⟩, [⟨⟨0, 5, 0⟩, ⟨1, 1, 1⟩⟩],
        [⟨⟨⟨0, 0, 5⟩, 1⟩, ⟨⟨0, 0, 0⟩, ⟨0, 0, 0⟩, ⟨1, 1, 1⟩, 32⟩⟩]⟩ (-1) (Or.inl (by decide))).1]
  norm_num [linear_interpolation, addv, mulv]

/-! ## C16, C17, C19: geometry of the hit point and of the reflected direction -/

/-- The hit point of a ray with `dotp d d = 1` is at squared distance `radius * radius` from
the center. -/
theorem rsi_point_on_sphere (ray : ray ℝ) (sphere : sphere ℝ)
    (hdd : dotp ray.direction ray.direction = 1)
    (hhit : (ray_sphere_intersection Real.sqrt ray sphere).intersected = 1) :
    dotp (subv (ray_sphere_intersection Real.sqrt ray sphere).point sphere.center)
        (subv (ray_sphere_intersection Real.sqrt ray sphere).point sphere.center) =
      sphere.radius * sphere.radius := by
  obtain ⟨t, ht, _, hpoint⟩ := rsi_hit_values Real.sqrt ray sphere hhit
  obtain ⟨_, h2⟩ := (rsi_intersected_iff Real.sqrt ray sphere).mp hhit
  rw [hpoint, dotp_point_sub_center, hdd]
  revert ht h2
  generalize dotp (subv sphere.center ray.origin) ray.direction = p
  generalize dotp (subv sphere.center ray.origin) (subv sphere.center ray.origin) = l2
  generalize sphere.radius = r
  intro ht h2
  have hq2 : Real.sqrt (r * r - (l2 - p * p)) ^ 2 = r * r - (l2 - p * p) :=
    Real.sq_sqrt (by linarith [not_lt.mp h2])
  generalize Real.sqrt (r * r - (l2 - p * p)) = q at hq2 ht
  split_ifs at ht <;> (rw [ht]; nlinarith)

/-- C16: for a unit-direction ray whose origin is not on the sphere surface, the distance of
a reported hit is the least `t > 0` with `|origin + t * direction - center|^2 = radius^2`;
it is `p - q` when the origin is outside and `p + q` when it is inside. -/
theorem ray_sphere_intersection_least_root (ray : ray ℝ) (sphere : sphere ℝ)
    (hd : norm Real.sqrt ray.direction = 1)
    (hsurf : norm Real.sqrt (subv sphere.center ray.origin) ^ 2 ≠ sphere.radius ^ 2)
    (hhit : (ray_sphere_intersection Real.sqrt ray sphere).intersected = 1) :
    ∃ t : ℝ, (ray_sphere_intersection Real.sqrt ray sphere).distance = (t : ℝ) ∧ 0 < t ∧
      norm Real.sqrt (subv (addv ray.origin (mulv ray.direction t)) sphere.center) ^ 2 =
        sphere.radius ^ 2 ∧
      (∀ s : ℝ, 0 < s →
        norm Real.sqrt (subv (addv ray.origin (mulv ray.direction s)) sphere.center) ^ 2 =
          sphere.radius ^ 2 → t ≤ s) ∧
      (norm Real.sqrt (subv sphere.center ray.origin) ^ 2 > sphere.radius ^ 2 →
        t = dotp (subv sphere.center ray.origin) ray.direction -
          Real.sqrt (sphere.radius * sphere.radius -
            (dotp (subv sphere.center ray.origin) (subv sphere.center ray.origin) -
              dotp (subv sphere.center ray.origin) ray.direction *
                dotp (subv sphere.center ray.origin) ray.direction))) ∧
      (norm Real.sqrt (subv sphere.center ray.origin) ^ 2 < sphere.radius ^ 2 →
        t = dotp (subv sphere.center ray.origin) ray.direction +
          Real.sqrt (sphere.radius * sphere.radius -
            (dotp (subv sphere.center ray.origin) (subv sphere.center ray.origin) -
              dotp (subv sphere.center ray.origin) ray.direction *
                dotp (subv sphere.center ray.origin) ray.direction))) := by
  have hdd := dotp_self_of_norm_one ray.direction hd
  obtain ⟨t, ht, hdist, _⟩ := rsi_hit_values Real.sqrt ray sphere hhit
  obtain ⟨h1, h2⟩ := (rsi_intersected_iff Real.sqrt ray sphere).mp hhit
  refine ⟨t, hdist, ?_⟩
  simp only [norm_sq, dotp_point_sub_center, hdd] at hsurf ⊢
  revert ht h1 h2 hsurf
  generalize dotp (subv sphere.center ray.origin) ray.direction = p
  generalize dotp (subv sphere.center ray.origin) (subv sphere.center ray.origin) = l2
  generalize sphere.radius = r
  intro ht h1 h2 hsurf
  have hq0 : 0 ≤ Real.sqrt (r * r - (l2 - p * p)) := Real.sqrt_nonneg _
  have hq2 : Real.sqrt (r * r - (l2 - p * p)) ^ 2 = r * r - (l2 - p * p) :=
    Real.sq_sqrt (by linarith [not_lt.mp h2])
  generalize Real.sqrt (r * r - (l2 - p * p)) = q at hq0 hq2 ht ⊢
  by_cases ho : l2 > r * r
  · have hp : 0 ≤ p := not_lt.mp (fun hlt => h1 ⟨hlt, ho⟩)
    rw [if_pos ho] at ht
    have hqp : q < p := by
      by_contra hcon
      nlinarith [not_lt.mp hcon]
    refine ⟨by rw [ht]; linarith, by rw [ht]; nlinarith, ?_, fun _ => ht, ?_⟩
    · intro s _ hs
      rw [ht]
      by_contra hcon
      nlinarith [not_le.mp hcon]
    · intro hin
      nlinarith
  · have hin : l2 < r * r := by
      rcases lt_or_eq_of_le (not_lt.mp ho) with h | h
      · exact h
      · exact absurd (by rw [h]; ring) hsurf
    rw [if_neg ho] at ht
    have hqp : p < q := by
      by_contra hcon
      nlinarith [not_lt.mp hcon]
    have hqn : -p < q := by
      by_contra hcon
      nlinarith [not_lt.mp hcon]
    refine ⟨by rw [ht]; linarith, by rw [ht]; nlinarith, ?_, ?_, fun _ => ht⟩
    · intro s hs0 hs
      rw [ht]
      have hfac : (s - p - q) * (s - p + q) = 0 := by nlinarith
      rcases mul_eq_zero.mp hfac with h | h
      · linarith
      · linarith
    · intro hout
      nlinarith

/-- C16, at a concrete ray and sphere: the unit sphere at `(0, 0, 5)` seen from the origin
along `z` is entered at distance 4. -/
theorem ray_sphere_intersection_least_root_witness :
    ∃ t : ℝ, (ray_sphere_intersection Real.sqrt ⟨⟨0, 0, 0⟩, ⟨0, 0, 1⟩⟩
        ⟨⟨0, 0, 5⟩, 1⟩).distance = (t : ℝ) ∧ 0 < t ∧
      (∀ s : ℝ, 0 < s →
        norm Real.sqrt (subv (addv ⟨0, 0, 0⟩ (mulv ⟨0, 0, 1⟩ s)) ⟨0, 0, 5⟩) ^ 2 = (1 : ℝ) ^ 2 →
        t ≤ s) := by
  obtain ⟨t, h1, h2, _, h4, _⟩ := ray_sphere_intersection_least_root
    ⟨⟨0, 0, 0⟩, ⟨0, 0, 1⟩⟩ ⟨⟨0, 0, 5⟩, 1⟩
    (by simp [norm, dotp])
    (by rw [norm_sq]; norm_num [dotp, subv])
    (by rw [rsi_intersected_iff]; norm_num [dotp, subv])
  exact ⟨t, h1, h2, h4⟩

/-- C19: for a unit-direction ray, the point of a reported hit is on the sphere surface,
`|point - center|^2 = radius^2`; for `radius > 0` the vector `point - center` that
`sphere_normal` normalizes is not the zero vector. -/
theorem ray_sphere_intersection_point_on_surface (ray : ray ℝ) (sphere : sphere ℝ)
    (hd : norm Real.sqrt ray.direction = 1)
    (hhit : (ray_sphere_intersection Real.sqrt ray sphere).intersected = 1) :
    norm Real.sqrt
        (subv (ray_sphere_intersection Real.sqrt ray sphere).point sphere.center) ^ 2 =
      sphere.radius ^ 2 ∧
    (0 < sphere.radius →
      subv (ray_sphere_intersection Real.sqrt ray sphere).point sphere.center ≠
        zero_vector) := by
  have hon := rsi_point_on_sphere ray sphere (dotp_self_of_norm_one ray.direction hd) hhit
  constructor
  · rw [norm_sq, hon]; ring
  · intro hr hzero
    rw [hzero] at hon
    simp only [dotp, zero_vector] at hon
    nlinarith

/-- C19, at a concrete ray and sphere: the hit of the ray from the origin along `z` with the
unit sphere centered at `(0, 0, 5)`. -/
theorem ray_sphere_intersection_point_on_surface_witness :
    norm Real.sqrt
        (subv (ray_sphere_intersection Real.sqrt ⟨⟨0, 0, 0⟩, ⟨0, 0, 1⟩⟩
          ⟨⟨0, 0, 5⟩, 1⟩).point ⟨0, 0, 5⟩) ^ 2 = (1 : ℝ) ^ 2 ∧
    ((0 : ℝ) < 1 →
      subv (ray_sphere_intersection Real.sqrt ⟨⟨0, 0, 0⟩, ⟨0, 0, 1⟩⟩
        ⟨⟨0, 0, 5⟩, 1⟩).point ⟨0, 0, 5⟩ ≠ zero_vector) :=
  ray_sphere_intersection_point_on_surface ⟨⟨0, 0, 0⟩, ⟨0, 0, 1⟩⟩ ⟨⟨0, 0, 5⟩, 1⟩
    (by simp [norm, dotp])
    (by rw [rsi_intersected_iff]; norm_num [dotp, subv])

/-! ## C18: the anti-aliasing grid -/

/-- A loop that stores `f i` at index `i` for `i = 0 .. n - 1` leaves `f k` at every index
`k < n` and does not touch the other entries. -/
theorem foldl_update_range {β : Type} (f : Nat → β) (g : Nat → β) (n k : Nat) :
    (List.range n).foldl (fun g i => Function.update g i (f i)) g k =
      if k < n then f k else g k := by
  induction n with
  | zero => simp
  | succ n ih =>
    rw [List.range_succ, List.foldl_append, List.foldl_cons, List.foldl_nil]
    by_cases hk : k = n
    · subst hk
      simp
    · rw [Function.update_noteq hk, ih]
      by_cases hlt : k < n
      · simp [hlt, Nat.lt_succ_of_lt hlt]
      · have hlt2 : ¬ k < n + 1 := by omega
        simp [hlt, hlt2]

/-- The entry `i < 16` of the grid, as the loop of `init_anti_aliasing_grid` stores it. -/
theorem init_anti_aliasing_grid_entry (grid : Nat → vector K) (i : Nat) (hi : i < 16) :
    init_anti_aliasing_grid grid i =
      { x := 1 / (1 + 4) + 1 / (1 + 4) * ((i % 4 : Nat) : K),
        y := 1 / (1 + 4) + 1 / (1 + 4) * ((i / 4 : Nat) : K),
        z := 0 } := by
  unfold init_anti_aliasing_grid
  rw [foldl_update_range
    (fun i => ({ x := 1 / (1 + 4) + 1 / (1 + 4) * ((i % 4 : Nat) : K),
                 y := 1 / (1 + 4) + 1 / (1 + 4) * ((i / 4 : Nat) : K),
                 z := 0 } : vector K))]
  rw [if_pos (by omega)]

/-- C18: for `i` in `0 .. 15`, `init_anti_aliasing_grid` sets
`grid[i] = (step * ((i mod 4) + 1), step * ((i div 4) + 1), 0)` with `step = 1/5`; the `x`
and `y` offsets are strictly between 0 and 1, and the 16 entries are pairwise distinct. -/
theorem init_anti_aliasing_grid_values (grid : Nat → vector ℝ) :
    (∀ i : Nat, i < 16 →
      init_anti_aliasing_grid grid i =
        { x := 1 / 5 * (((i % 4 : Nat) : ℝ) + 1),
          y := 1 / 5 * (((i / 4 : Nat) : ℝ) + 1),
          z := 0 } ∧
      0 < (init_anti_aliasing_grid grid i).x ∧ (init_anti_aliasing_grid grid i).x < 1 ∧
      0 < (init_anti_aliasing_grid grid i).y ∧ (init_anti_aliasing_grid grid i).y < 1) ∧
    (∀ i j : Nat, i < 16 → j < 16 → i ≠ j →
      init_anti_aliasing_grid grid i ≠ init_anti_aliasing_grid grid j) := by
  constructor
  · intro i hi
    rw [init_anti_aliasing_grid_entry grid i hi]
    have hm : ((i % 4 : Nat) : ℝ) ≤ 3 := by
      have : i % 4 ≤ 3 := by omega
      exact_mod_cast this
    have hq : ((i / 4 : Nat) : ℝ) ≤ 3 := by
      have : i / 4 ≤ 3 := by omega
      exact_mod_cast this
    have hm0 : (0 : ℝ) ≤ ((i % 4 : Nat) : ℝ) := Nat.cast_nonneg _
    have hq0 : (0 : ℝ) ≤ ((i / 4 : Nat) : ℝ) := Nat.cast_nonneg _
    refine ⟨?_, ?_, ?_, ?_, ?_⟩
    · simp only [vector.mk.injEq, and_true]
      constructor <;> ring
    · show (0 : ℝ) < 1 / (1 + 4) + 1 / (1 + 4) * ((i % 4 : Nat) : ℝ)
      nlinarith
    · show 1 / (1 + 4) + 1 / (1 + 4) * ((i % 4 : Nat) : ℝ) < 1
      nlinarith
    · show (0 : ℝ) < 1 / (1 + 4) + 1 / (1 + 4) * ((i / 4 : Nat) : ℝ)
      nlinarith
    · show 1 / (1 + 4) + 1 / (1 + 4) * ((i / 4 : Nat) : ℝ) < 1
      nlinarith
  · intro i j hi hj hij heq
    rw [init_anti_aliasing_grid_entry grid i hi, init_anti_aliasing_grid_entry grid j hj]
      at heq
    simp only [vector.mk.injEq, and_true] at heq
    obtain ⟨hx, hy⟩ := heq
    have hx2 : ((i % 4 : Nat) : ℝ) = ((j % 4 : Nat) : ℝ) := by linarith
    have hy2 : ((i / 4 : Nat) : ℝ) = ((j / 4 : Nat) : ℝ) := by linarith
    have hx3 : i % 4 = j % 4 := by exact_mod_cast hx2
    have hy3 : i / 4 = j / 4 := by exact_mod_cast hy2
    apply hij
    omega

/-- C18, at index 6 (column 2, row 1): the offset is `(3/5, 2/5, 0)`. -/
theorem init_anti_aliasing_grid_values_witness :
    init_anti_aliasing_grid (fun _ => (zero_vector : vector ℝ)) 6 = ⟨3 / 5, 2 / 5, 0⟩ := by
  rw [((init_anti_aliasing_grid_values (fun _ => zero_vector)).1 6 (by decide)).1]
  norm_num

/-! ## C13: the output mapping of `render_pixel` -/

/-- On the `int` range the reduction to 32 bits is the identity. -/
theorem int_wrap_of_range (n : Int) (h1 : -2 ^ 31 ≤ n) (h2 : n < 2 ^ 31) : int_wrap n = n := by
  unfold int_wrap
  norm_num at h1 h2 ⊢
  omega

/-- The bounds of `x + y * w` for a pixel of a `w` by `h` image. -/
theorem index_bounds (w h : Int) (x y : Nat) (hx : (x : Int) < w) (hy : (y : Int) < h) :
    0 ≤ (y : Int) * w ∧ (y : Int) * w ≤ (x : Int) + (y : Int) * w ∧
      (x : Int) + (y : Int) * w < w * h := by
  have hx0 : (0 : Int) ≤ x := Int.ofNat_nonneg x
  have hy0 : (0 : Int) ≤ y := Int.ofNat_nonneg y
  have hw : 0 < w := lt_of_le_of_lt hx0 hx
  refine ⟨mul_nonneg hy0 (le_of_lt hw), by linarith, ?_⟩
  have h1 : ((y : Int) + 1) * w ≤ h * w :=
    mul_le_mul_of_nonneg_right (by omega) (le_of_lt hw)
  nlinarith

/-- Without overflow the index computed by `render` is `x + y * w`. -/
theorem render_index (w h : Int) (x y : Nat) (hx : (x : Int) < w) (hy : (y : Int) < h)
    (hint : w * h ≤ 2 ^ 31 - 1) :
    int_wrap ((x : Int) + int_wrap ((y : Int) * w)) = (x : Int) + (y : Int) * w := by
  obtain ⟨h0, h1, h2⟩ := index_bounds w h x y hx hy
  have hb : w * h < 2 ^ 31 := by linarith
  rw [int_wrap_of_range ((y : Int) * w) (by linarith) (by linarith),
    int_wrap_of_range _ (by linarith) (by linarith)]

/-- The column `x` and the row `y` are determined by the index `x + y * w`. -/
theorem index_decode (w : Int) (x y : Nat) (hx : (x : Int) < w) :
    ((x : Int) + (y : Int) * w) % w = x ∧ ((x : Int) + (y : Int) * w) / w = y := by
  have hx0 : (0 : Int) ≤ x := Int.ofNat_nonneg x
  have hw : w ≠ 0 := by omega
  constructor
  · rw [Int.add_mul_emod_self, Int.emod_eq_of_lt hx0 hx]
  · rw [Int.add_mul_ediv_right _ _ hw, Int.ediv_eq_zero_of_lt hx0 hx, zero_add]

/-- The indices stored by `render`, in program order. -/
theorem render_writes_keys (powf : ℝ → ℝ → ℝ) (tan : ℝ → ℝ) (scene : scene ℝ)
    (aa_grid : Nat → vector ℝ) (w h : Int) :
    (render_writes Real.sqrt powf tan scene aa_grid w h).map Prod.fst =
      (List.range w.toNat).flatMap
        (fun (x : Nat) => (List.range h.toNat).map
          (fun (y : Nat) => int_wrap ((x : Int) + int_wrap ((y : Int) * w)))) := by
  unfold render_writes
  rw [List.map_flatMap]
  simp only [List.map_map, Function.comp_def]

/-- Without overflow, the indices stored by `render` are exactly those of `[0, w * h)`. -/
theorem mem_render_writes_keys (powf : ℝ → ℝ → ℝ) (tan : ℝ → ℝ) (scene : scene ℝ)
    (aa_grid : Nat → vector ℝ) (w h : Int) (hw : 0 < w) (hh : 0 < h)
    (hint : w * h ≤ 2 ^ 31 - 1) (i : Int) :
    i ∈ (render_writes Real.sqrt powf tan scene aa_grid w h).map Prod.fst ↔
      0 ≤ i ∧ i < w * h := by
  rw [render_writes_keys]
  simp only [List.mem_flatMap, List.mem_map, List.mem_range]
  constructor
  · rintro ⟨x, hx, y, hy, hi⟩
    have hxw : (x : Int) < w := by omega
    have hyh : (y : Int) < h := by omega
    rw [render_index w h x y hxw hyh hint] at hi
    obtain ⟨h0, h1, h2⟩ := index_bounds w h x y hxw hyh
    rw [← hi]
    exact ⟨by linarith, h2⟩
  · rintro ⟨hi0, hi1⟩
    have hm0 : 0 ≤ i % w := Int.emod_nonneg i (by omega)
    have hm1 : i % w < w := Int.emod_lt_of_pos i hw
    have hd0 : 0 ≤ i / w := Int.ediv_nonneg hi0 (le_of_lt hw)
    have hd1 : i / w < h := Int.ediv_lt_of_lt_mul hw (by linarith [mul_comm w h])
    refine ⟨(i % w).toNat, by omega, (i / w).toNat, by omega, ?_⟩
    have hxw : (((i % w).toNat : Nat) : Int) < w := by omega
    have hyh : (((i / w).toNat : Nat) : Int) < h := by omega
    rw [render_index w h _ _ hxw hyh hint, Int.toNat_of_nonneg hm0, Int.toNat_of_nonneg hd0]
    exact Int.emod_add_ediv' i w

/-- Without overflow, `render` stores at most once at each index. -/
theorem nodup_render_writes_keys (powf : ℝ → ℝ → ℝ) (tan : ℝ → ℝ) (scene : scene ℝ)
    (aa_grid : Nat → vector ℝ) (w h : Int) (hint : w * h ≤ 2 ^ 31 - 1) :
    ((render_writes Real.sqrt powf tan scene aa_grid w h).map Prod.fst).Nodup := by
  rw [render_writes_keys, List.nodup_flatMap]
  constructor
  · intro x hx
    have hxw : (x : Int) < w := by have := List.mem_range.mp hx; omega
    apply List.Nodup.map_on _ (List.nodup_range _)
    intro y hy y2 hy2 heq
    have hyh : (y : Int) < h := by have := List.mem_range.mp hy; omega
    have hyh2 : (y2 : Int) < h := by have := List.mem_range.mp hy2; omega
    rw [render_index w h x y hxw hyh hint, render_index w h x y2 hxw hyh2 hint] at heq
    have h1 := (index_decode w x y hxw).2
    rw [heq, (index_decode w x y2 hxw).2] at h1
    exact_mod_cast h1.symm
  · apply (List.nodup_range _).pairwise_of_forall_ne
    intro x hx x2 hx2 hne
    have hxw : (x : Int) < w := by have := List.mem_range.mp hx; omega
    have hxw2 : (x2 : Int) < w := by have := List.mem_range.mp hx2; omega
    show List.Disjoint _ _
    intro k hk hk2
    obtain ⟨y, hy, hky⟩ := List.mem_map.mp hk
    obtain ⟨y2, hy2, hky2⟩ := List.mem_map.mp hk2
    have hyh : (y : Int) < h := by have := List.mem_range.mp hy; omega
    have hyh2 : (y2 : Int) < h := by have := List.mem_range.mp hy2; omega
    rw [render_index w h x y hxw hyh hint] at hky
    rw [render_index w h x2 y2 hxw2 hyh2 hint] at hky2
    have h1 := (index_decode w x y hxw).1
    rw [hky, ← hky2, (index_decode w x2 y2 hxw2).1] at h1
    exact hne (by exact_mod_cast h1.symm)

/-- The nested loops of `render` perform the stores of `render_writes`, in order. -/
theorem render_eq_foldl_writes (powf : ℝ → ℝ → ℝ) (tan : ℝ → ℝ) (scene : scene ℝ)
    (aa_grid : Nat → vector ℝ) (fb : Int → color) (w h : Int) :
    render Real.sqrt powf tan scene aa_grid fb w h =
      (render_writes Real.sqrt powf tan scene aa_grid w h).foldl
        (fun fb p => Function.update fb p.1 p.2) fb := by
  unfold render render_writes
  generalize List.range w.toNat = xs
  induction xs generalizing fb with
  | nil => rfl
  | cons x xs ih =>
    rw [List.foldl_cons, List.flatMap_cons, List.foldl_append, List.foldl_map]
    exact ih _

/-- A sequence of stores does not change an entry whose index is not stored. -/
theorem foldl_update_of_not_mem (l : List (Int × color)) (fb : Int → color) (i : Int)
    (hi : i ∉ l.map Prod.fst) :
    l.foldl (fun fb p => Function.update fb p.1 p.2) fb i = fb i := by
  induction l generalizing fb with
  | nil => rfl
  | cons p l ih =>
    rw [List.map_cons, List.mem_cons, not_or] at hi
    rw [List.foldl_cons, ih _ hi.2, Function.update_noteq hi.1]

/-- After a sequence of stores at pairwise distinct indices, the entry at a stored index is
the value stored there. -/
theorem foldl_update_of_mem (l : List (Int × color)) (fb : Int → color) (i : Int) (c : color)
    (hnd : (l.map Prod.fst).Nodup) (hmem : (i, c) ∈ l) :
    l.foldl (fun fb p => Function.update fb p.1 p.2) fb i = c := by
  induction l generalizing fb with
  | nil => exact absurd hmem (List.not_mem_nil _)
  | cons p l ih =>
    rw [List.map_cons, List.nodup_cons] at hnd
    rw [List.foldl_cons]
    rcases List.mem_cons.mp hmem with hp | hp
    · rw [foldl_update_of_not_mem l _ i (by rw [← hp] at hnd; exact hnd.1), ← hp]
      exact Function.update_same _ _ _
    · exact ih _ hnd.2 hp

/-- C14: for `w > 0`, `h > 0` and `w * h` in the `int` range, `render` stores exactly once
at each index of `[0, w * h)` and at no other index, and afterwards `fb[x + y * w]` is
`render_pixel(scene, aa_grid, x, y, w, h)` for `0 ≤ x < w`, `0 ≤ y < h`. -/
theorem render_framebuffer (powf : ℝ → ℝ → ℝ) (tan : ℝ → ℝ) (scene : scene ℝ)
    (aa_grid : Nat → vector ℝ) (fb : Int → color) (w h : Int) (hw : 0 < w) (hh : 0 < h)
    (hint : w * h ≤ 2 ^ 31 - 1) :
    render Real.sqrt powf tan scene aa_grid fb w h =
      (render_writes Real.sqrt powf tan scene aa_grid w h).foldl
        (fun fb p => Function.update fb p.1 p.2) fb ∧
    (∀ i : Int, ((render_writes Real.sqrt powf tan scene aa_grid w h).map Prod.fst).count i =
      if 0 ≤ i ∧ i < w * h then 1 else 0) ∧
    (∀ x y : Int, 0 ≤ x → x < w → 0 ≤ y → y < h →
      render Real.sqrt powf tan scene aa_grid fb w h (x + y * w) =
        render_pixel Real.sqrt powf tan scene aa_grid x y w h) := by
  have hnd := nodup_render_writes_keys powf tan scene aa_grid w h hint
  refine ⟨render_eq_foldl_writes powf tan scene aa_grid fb w h, ?_, ?_⟩
  · intro i
    by_cases hi : 0 ≤ i ∧ i < w * h
    · rw [if_pos hi]
      exact List.count_eq_one_of_mem hnd
        ((mem_render_writes_keys powf tan scene aa_grid w h hw hh hint i).mpr hi)
    · rw [if_neg hi]
      exact List.count_eq_zero_of_not_mem
        (fun hmem => hi ((mem_render_writes_keys powf tan scene aa_grid w h hw hh hint i).mp hmem))
  · intro x y hx0 hxw hy0 hyh
    rw [render_eq_foldl_writes]
    apply foldl_update_of_mem _ _ _ _ hnd
    unfold render_writes
    rw [List.mem_flatMap]
    refine ⟨x.toNat, List.mem_range.mpr (by omega), ?_⟩
    rw [List.mem_map]
    refine ⟨y.toNat, List.mem_range.mpr (by omega), ?_⟩
    have hxn : ((x.toNat : Nat) : Int) = x := Int.toNat_of_nonneg hx0
    have hyn : ((y.toNat : Nat) : Int) = y := Int.toNat_of_nonneg hy0
    rw [render_index w h x.toNat y.toNat (by omega) (by omega) hint, hxn, hyn]

/-- C14, for a 4 by 3 image: 12 stores, one at each index of `[0, 12)`, and the entry of
the pixel `(x, y) = (1, 2)` is at index 9. -/
theorem render_framebuffer_witness :
    (∀ i : Int, ((render_writes Real.sqrt (fun x y => x ^ y) Real.tan
        ⟨⟨0, 0, 0⟩, ⟨⟨7 / 10, 8 / 10, 1⟩, ⟨2 / 10, 3 / 10, 1⟩⟩, [], []⟩
        (init_anti_aliasing_grid (fun _ => zero_vector)) 4 3).map Prod.fst).count i =
      if 0 ≤ i ∧ i < 4 * 3 then 1 else 0) ∧
    render Real.sqrt (fun x y => x ^ y) Real.tan
        ⟨⟨0, 0, 0⟩, ⟨⟨7 / 10, 8 / 10, 1⟩, ⟨2 / 10, 3 / 10, 1⟩⟩, [], []⟩
        (init_anti_aliasing_grid (fun _ => zero_vector)) (fun _ => ⟨some 0, some 0, some 0⟩)
        4 3 (1 + 2 * 4) =
      render_pixel Real.sqrt (fun x y => x ^ y) Real.tan
        ⟨⟨0, 0, 0⟩, ⟨⟨7 / 10, 8 / 10, 1⟩, ⟨2 / 10, 3 / 10, 1⟩⟩, [], []⟩
        (init_anti_aliasing_grid (fun _ => zero_vector)) 1 2 4 3 := by
  have hall := render_framebuffer (fun x y => x ^ y) Real.tan
    ⟨⟨0, 0, 0⟩, ⟨⟨7 / 10, 8 / 10, 1⟩, ⟨2 / 10, 3 / 10, 1⟩⟩, [], []⟩
    (init_anti_aliasing_grid (fun _ => zero_vector)) (fun _ => ⟨some 0, some 0, some 0⟩)
    4 3 (by decide) (by decide) (by decide)
  exact ⟨hall.2.1, hall.2.2 1 2 (by decide) (by decide) (by decide) (by decide)⟩

/-! ## C20: the radiance is non-negative -/

/-- With no rounding, `dotp_fl` is `dotp`. -/
theorem dotp_fl_id (a b : vector K) : dotp_fl id a b = dotp a b := rfl

/-- With no rounding, `addv_fl` is `addv`. -/
theorem addv_fl_id (a b : vector K) : addv_fl id a b = addv a b := rfl

/-- With no rounding, `subv_fl` is `subv`. -/
theorem subv_fl_id (a b : vector K) : subv_fl id a b = subv a b := rfl

/-- With no rounding, `hadp_fl` is `hadp`. -/
theorem hadp_fl_id (a b : vector K) : hadp_fl id a b = hadp a b := rfl

/-- With no rounding, `mulv_fl` is `mulv`. -/
theorem mulv_fl_id (a : vector K) (b : K) : mulv_fl id a b = mulv a b := rfl

/-- With no rounding, `divv_fl` is `divv`. -/
theorem divv_fl_id (a : vector K) (b : K) : divv_fl id a b = divv a b := rfl

/-- With no rounding, `norm_fl` is `norm`. -/
theorem norm_fl_id (sqrt : K → K) (a : vector K) : norm_fl id sqrt a = norm sqrt a := rfl

/-- With no rounding, `budge_fl` is `budge`. -/
theorem budge_fl_id (point direction : vector K) :
    budge_fl id point direction = budge point direction := rfl

/-- With no rounding, `sphere_normal_fl` is `sphere_normal`. -/
theorem sphere_normal_fl_id (sqrt : K → K) (sphere : sphere K) (point : vector K) :
    sphere_normal_fl id sqrt sphere point = sphere_normal sqrt sphere point := rfl

/-- With no rounding, `normalize_fl` is `normalize`. -/
theorem normalize_fl_id (sqrt : K → K) (a : vector K) :
    normalize_fl id sqrt a = normalize sqrt a := rfl

/-- With no rounding, `reflect_fl` is `reflect`. -/
theorem reflect_fl_id (incident normal : vector K) :
    reflect_fl id incident normal = reflect incident normal := rfl

/-- With no rounding, `linear_interpolation_fl` is `linear_interpolation`. -/
theorem linear_interpolation_fl_id (gradient : gradient K) (x : K) :
    linear_interpolation_fl id gradient x = linear_interpolation gradient x := rfl

/-- With no rounding, `blinn_phong_fl` is `blinn_phong`. -/
theorem blinn_phong_fl_id (sqrt : K → K) (powf : K → K → K)
    (light brightness view normal : vector K) (material : material K) :
    blinn_phong_fl id sqrt powf light brightness view normal material =
      blinn_phong sqrt powf light brightness view normal material := rfl

/-- With no rounding, `ray_sphere_intersection_fl` is `ray_sphere_intersection`. -/
theorem ray_sphere_intersection_fl_id (sqrt : K → K) (ray : ray K) (sphere : sphere K) :
    ray_sphere_intersection_fl id sqrt ray sphere = ray_sphere_intersection sqrt ray sphere :=
  rfl

/-- With no rounding, `ray_scene_intersection_fl` is `ray_scene_intersection`. -/
theorem ray_scene_intersection_fl_id (sqrt : K → K) (ray : ray K) (scene : scene K) :
    ray_scene_intersection_fl id sqrt ray scene = ray_scene_intersection sqrt ray scene := rfl

/-- With no rounding, `is_light_blocked_fl` is `is_light_blocked`. -/
theorem is_light_blocked_fl_id (sqrt : K → K) (scene : scene K) (point : vector K)
    (light : light K) :
    is_light_blocked_fl id sqrt scene point light = is_light_blocked sqrt scene point light := by
  simp only [is_light_blocked_fl, is_light_blocked, ray_scene_intersection_fl_id,
    normalize_fl_id, norm_fl_id, subv_fl_id]

/-- With no rounding, `direct_illumination_fl` is `direct_illumination`. -/
theorem direct_illumination_fl_id (sqrt : K → K) (powf : K → K → K) (scene : scene K)
    (point view n : vector K) (mat : material K) :
    direct_illumination_fl id sqrt powf scene point view n mat =
      direct_illumination sqrt powf scene point view n mat := by
  simp only [direct_illumination_fl, direct_illumination, is_light_blocked_fl_id,
    normalize_fl_id, subv_fl_id, blinn_phong_fl_id, addv_fl_id]

/-- With no rounding, `gamma_channel_fl` is `gamma_channel`. -/
theorem gamma_channel_fl_id [FloorRing K] (sqrt : K → K) (c : K) :
    gamma_channel_fl id sqrt c = gamma_channel sqrt c := rfl

/-- With a negative depth `ray_tracing_fl` returns the background gradient. -/
theorem ray_tracing_fl_of_neg (rnd : K → K) (sqrt : K → K) (powf : K → K → K) (ray : ray K)
    (scene : scene K) (depth : Int) (h : depth < 0) :
    ray_tracing_fl rnd sqrt powf ray scene depth =
      linear_interpolation_fl rnd scene.background |ray.direction.y| := by
  rw [ray_tracing_fl]
  simp only [h, true_or, dite_true]

/-- Without a hit `ray_tracing_fl` returns the background gradient. -/
theorem ray_tracing_fl_of_miss (rnd : K → K) (sqrt : K → K) (powf : K → K → K) (ray : ray K)
    (scene : scene K) (depth : Int)
    (h : (ray_scene_intersection_fl rnd sqrt ray scene).intersection.intersected = 0) :
    ray_tracing_fl rnd sqrt powf ray scene depth =
      linear_interpolation_fl rnd scene.background |ray.direction.y| := by
  rw [ray_tracing_fl]
  simp only [h, or_true, dite_true]

/-- With a non-negative depth and a hit, `ray_tracing_fl` is the direct illumination plus
the attenuated radiance of the reflected ray at `depth - 1`. -/
theorem ray_tracing_fl_of_hit (rnd : K → K) (sqrt : K → K) (powf : K → K → K) (ray : ray K)
    (scene : scene K) (depth : Int) (hd : 0 ≤ depth)
    (hhit : (ray_scene_intersection_fl rnd sqrt ray scene).intersection.intersected ≠ 0) :
    ray_tracing_fl rnd sqrt powf ray scene depth =
      addv_fl rnd
        (direct_illumination_fl rnd sqrt powf scene
          (budge_fl rnd (ray_scene_intersection_fl rnd sqrt ray scene).intersection.point
            (sphere_normal_fl rnd sqrt
              (ray_scene_intersection_fl rnd sqrt ray scene).object.shape
              (ray_scene_intersection_fl rnd sqrt ray scene).intersection.point))
          (mulv_fl rnd ray.direction (-1))
          (sphere_normal_fl rnd sqrt
            (ray_scene_intersection_fl rnd sqrt ray scene).object.shape
            (ray_scene_intersection_fl rnd sqrt ray scene).intersection.point)
          (ray_scene_intersection_fl rnd sqrt ray scene).object.material)
        (hadp_fl rnd
          (ray_tracing_fl rnd sqrt powf
            { origin := budge_fl rnd
                (ray_scene_intersection_fl rnd sqrt ray scene).intersection.point
                (sphere_normal_fl rnd sqrt
                  (ray_scene_intersection_fl rnd sqrt ray scene).object.shape
                  (ray_scene_intersection_fl rnd sqrt ray scene).intersection.point),
              direction := reflect_fl rnd (mulv_fl rnd ray.direction (-1))
                (sphere_normal_fl rnd sqrt
                  (ray_scene_intersection_fl rnd sqrt ray scene).object.shape
                  (ray_scene_intersection_fl rnd sqrt ray scene).intersection.point) }
            scene (depth - 1))
          (ray_scene_intersection_fl rnd sqrt ray scene).object.material.reflection) := by
  rw [ray_tracing_fl]
  have hcond : ¬ (depth < 0 ∨
      (ray_scene_intersection_fl rnd sqrt ray scene).intersection.intersected = 0) := by
    rintro (h | h)
    · omega
    · exact hhit h
  simp only [hcond, dite_false]

/-- With no rounding, `ray_tracing_fl` is `ray_tracing`: induction on a bound of the
depth. -/
theorem ray_tracing_fl_id_of_depth_lt (sqrt : K → K) (powf : K → K → K) (scene : scene K)
    (n : Nat) :
    ∀ (ray : ray K) (depth : Int), depth < n →
      ray_tracing_fl id sqrt powf ray scene depth = ray_tracing sqrt powf ray scene depth := by
  induction n with
  | zero =>
    intro ray depth hlt
    have hneg : depth < 0 := by exact_mod_cast hlt
    rw [ray_tracing_fl_of_neg id sqrt powf ray scene depth hneg,
      ray_tracing_of_neg sqrt powf ray scene depth hneg]
    rfl
  | succ n ih =>
    intro ray depth hlt
    by_cases hstop : depth < 0 ∨
        (ray_scene_intersection sqrt ray scene).intersection.intersected = 0
    · rcases hstop with h | h
      · rw [ray_tracing_fl_of_neg id sqrt powf ray scene depth h,
          ray_tracing_of_neg sqrt powf ray scene depth h]
        rfl
      · rw [ray_tracing_fl_of_miss id sqrt powf ray scene depth
            (by rw [ray_scene_intersection_fl_id]; exact h),
          ray_tracing_of_miss sqrt powf ray scene depth h]
        rfl
    · have hd : 0 ≤ depth := not_lt.mp (fun h => hstop (Or.inl h))
      have hhit : (ray_scene_intersection sqrt ray scene).intersection.intersected ≠ 0 :=
        fun h => hstop (Or.inr h)
      have hlt2 : depth - 1 < (n : Int) := by push_cast at hlt; omega
      rw [ray_tracing_fl_of_hit id sqrt powf ray scene depth hd
          (by rw [ray_scene_intersection_fl_id]; exact hhit),
        ray_tracing_of_hit sqrt powf ray scene depth hd hhit, ih _ (depth - 1) hlt2]
      simp only [ray_scene_intersection_fl_id, budge_fl_id, sphere_normal_fl_id, mulv_fl_id,
        reflect_fl_id, direct_illumination_fl_id, addv_fl_id, hadp_fl_id]

/-- With no rounding, `ray_tracing_fl` is `ray_tracing`. -/
theorem ray_tracing_fl_id (sqrt : K → K) (powf : K → K → K) (ray : ray K) (scene : scene K)
    (depth : Int) :
    ray_tracing_fl id sqrt powf ray scene depth = ray_tracing sqrt powf ray scene depth :=
  ray_tracing_fl_id_of_depth_lt sqrt powf scene (depth + 1).toNat ray depth (by omega)

/-! ## Binary64: the rounding functions are nearest-value roundings -/

/-- The loop of `bit_length` adds to the accumulator the number `b` of binary digits of
`n`. -/
theorem bit_length_loop_spec (fuel : Nat) :
    ∀ n acc : Nat, n ≤ fuel →
      ∃ b : Nat, bit_length_loop fuel n acc = acc + b ∧ n < 2 ^ b ∧ (n = 0 → b = 0) ∧
        (0 < n → 2 ^ (b - 1) ≤ n) := by
  induction fuel with
  | zero =>
    intro n acc hn
    have hn0 : n = 0 := by omega
    subst hn0
    exact ⟨0, rfl, by norm_num, fun _ => rfl, fun h => absurd h (lt_irrefl 0)⟩
  | succ fuel ih =>
    intro n acc hn
    by_cases hn0 : n = 0
    · subst hn0
      exact ⟨0, by simp [bit_length_loop], by norm_num, fun _ => rfl,
        fun h => absurd h (lt_irrefl 0)⟩
    · obtain ⟨b, hb, hlt, hzero, hle⟩ := ih (n / 2) (acc + 1) (by omega)
      refine ⟨b + 1, ?_, ?_, fun h => absurd h hn0, ?_⟩
      · simp only [bit_length_loop, hn0, if_false, hb]
        omega
      · rw [pow_succ]
        omega
      · intro _
        rw [Nat.add_sub_cancel]
        by_cases hhalf : n / 2 = 0
        · rw [hzero hhalf]
          simp only [pow_zero]
          omega
        · have h1 := hle (Nat.pos_of_ne_zero hhalf)
          have hb1 : 1 ≤ b := by
            by_contra hcon
            have hb0 : b = 0 := by omega
            rw [hb0] at hlt
            simp only [pow_zero] at hlt
            omega
          have h2 : 2 ^ b = 2 ^ (b - 1) * 2 := by
            rw [← pow_succ]
            congr 1
            omega
          rw [h2]
          omega

/-- The number `bit_length n` of binary digits of `n > 0`:
`2 ^ (bit_length n - 1) ≤ n < 2 ^ bit_length n`. -/
theorem bit_length_spec (n : Nat) (hn : 0 < n) :
    2 ^ (bit_length n - 1) ≤ n ∧ n < 2 ^ bit_length n := by
  obtain ⟨b, hb, hlt, _, hle⟩ := bit_length_loop_spec n n 0 (le_refl n)
  unfold bit_length
  rw [hb, Nat.zero_add]
  exact ⟨hle hn, hlt⟩

/-- The loop of `isqrt` keeps `r * r ≤ n < (r + 2 ^ k) * (r + 2 ^ k)`. -/
theorem isqrt_loop_spec (n : Nat) (k : Nat) :
    ∀ r : Nat, r * r ≤ n → n < (r + 2 ^ k) * (r + 2 ^ k) →
      isqrt_loop n k r * isqrt_loop n k r ≤ n ∧
        n < (isqrt_loop n k r + 1) * (isqrt_loop n k r + 1) := by
  induction k with
  | zero =>
    intro r h1 h2
    simp only [pow_zero] at h2
    exact ⟨h1, h2⟩
  | succ k ih =>
    intro r h1 h2
    have h2k : 2 ^ (k + 1) = 2 ^ k + 2 ^ k := by rw [pow_succ]; omega
    rw [h2k] at h2
    by_cases hc : (r + 2 ^ k) * (r + 2 ^ k) ≤ n
    · simp only [isqrt_loop, hc, if_true]
      exact ih (r + 2 ^ k) hc (by rw [Nat.add_assoc]; exact h2)
    · simp only [isqrt_loop, hc, if_false]
      exact ih r h1 (not_le.mp hc)

/-- The integer square root: `isqrt n * isqrt n ≤ n < (isqrt n + 1) * (isqrt n + 1)`. -/
theorem isqrt_spec (n : Nat) :
    isqrt n * isqrt n ≤ n ∧ n < (isqrt n + 1) * (isqrt n + 1) := by
  unfold isqrt
  apply isqrt_loop_spec n _ 0 (Nat.zero_le n)
  rw [Nat.zero_add, ← pow_add]
  by_cases hn : n = 0
  · subst hn
    exact pow_pos (by norm_num) _
  · have h1 := (bit_length_spec n (Nat.pos_of_ne_zero hn)).2
    exact lt_of_lt_of_le h1 (Nat.pow_le_pow_right (by norm_num) (by omega))


/-- The binade of a non-zero rational from the bit lengths of its numerator and denominator:
with `e0 = bit_length num - bit_length den`, `2 ^ (e0 - 1) ≤ |x| < 2 ^ (e0 + 1)`. -/
theorem bit_length_binade (x : ℚ) (hx : x ≠ 0) :
    (2 : ℚ) ^ ((bit_length x.num.natAbs : Int) - (bit_length x.den : Int) - 1) ≤ |x| ∧
      |x| < (2 : ℚ) ^ ((bit_length x.num.natAbs : Int) - (bit_length x.den : Int) + 1) := by
  have hn : 0 < x.num.natAbs := Int.natAbs_pos.mpr (Rat.num_ne_zero.mpr hx)
  have hd : 0 < x.den := x.den_pos
  obtain ⟨ha1, ha2⟩ := bit_length_spec x.num.natAbs hn
  obtain ⟨hb1, hb2⟩ := bit_length_spec x.den hd
  have habs : |x| = (x.num.natAbs : ℚ) / (x.den : ℚ) := by
    conv_lhs => rw [← Rat.num_div_den x]
    rw [abs_div, Nat.abs_cast, Nat.cast_natAbs, Int.cast_abs]
  generalize bit_length x.num.natAbs = a at ha1 ha2 ⊢
  generalize bit_length x.den = b at hb1 hb2 ⊢
  generalize x.num.natAbs = n at hn ha1 ha2 habs
  generalize x.den = d at hd hb1 hb2 habs
  have ha0 : 1 ≤ a := by
    by_contra hcon
    have h0 : a = 0 := by omega
    rw [h0] at ha2
    simp only [pow_zero] at ha2
    omega
  have hb0 : 1 ≤ b := by
    by_contra hcon
    have h0 : b = 0 := by omega
    rw [h0] at hb2
    simp only [pow_zero] at hb2
    omega
  have hA : (2 : ℕ) ^ a = 2 ^ (a - 1) * 2 := by
    rw [← pow_succ]; congr 1; omega
  have hB : (2 : ℕ) ^ b = 2 ^ (b - 1) * 2 := by
    rw [← pow_succ]; congr 1; omega
  have hnq : (0 : ℚ) < n := by exact_mod_cast hn
  have hdq : (0 : ℚ) < d := by exact_mod_cast hd
  have hpa : (0 : ℚ) < 2 ^ a := by positivity
  have hpb : (0 : ℚ) < 2 ^ b := by positivity
  have ha1q : (2 : ℚ) ^ a ≤ 2 * n := by
    have : 2 ^ a ≤ 2 * n := by omega
    exact_mod_cast this
  have ha2q : (n : ℚ) < 2 ^ a := by exact_mod_cast ha2
  have hb1q : (2 : ℚ) ^ b ≤ 2 * d := by
    have : 2 ^ b ≤ 2 * d := by omega
    exact_mod_cast this
  have hb2q : (d : ℚ) < 2 ^ b := by exact_mod_cast hb2
  have he0 : (2 : ℚ) ^ ((a : Int) - (b : Int)) = 2 ^ a / 2 ^ b := by
    rw [zpow_sub₀ (by norm_num), zpow_natCast, zpow_natCast]
  rw [habs, zpow_sub_one₀ (by norm_num), zpow_add_one₀ (by norm_num), he0]
  constructor
  · rw [div_mul_eq_mul_div, div_le_div_iff₀ hpb hdq]
    have h1 : (2 : ℚ) ^ a * 2⁻¹ * d ≤ n * d := by nlinarith
    nlinarith
  · rw [div_mul_eq_mul_div, div_lt_div_iff₀ hdq hpb]
    nlinarith


/-- The rounding of a scaled magnitude `s ≥ 0` to an integer: the result is within `1/2`. -/
theorem round_half_even_spec (s : ℚ) (hs : 0 ≤ s) :
    0 ≤ (if s - (⌊s⌋ : ℚ) < 1 / 2 then ⌊s⌋
        else if 1 / 2 < s - (⌊s⌋ : ℚ) then ⌊s⌋ + 1
        else if ⌊s⌋ % 2 = 0 then ⌊s⌋ else ⌊s⌋ + 1) ∧
    (((if s - (⌊s⌋ : ℚ) < 1 / 2 then ⌊s⌋
        else if 1 / 2 < s - (⌊s⌋ : ℚ) then ⌊s⌋ + 1
        else if ⌊s⌋ % 2 = 0 then ⌊s⌋ else ⌊s⌋ + 1 : Int) : ℚ) ≤ (⌊s⌋ : ℚ) + 1) ∧
    |(((if s - (⌊s⌋ : ℚ) < 1 / 2 then ⌊s⌋
        else if 1 / 2 < s - (⌊s⌋ : ℚ) then ⌊s⌋ + 1
        else if ⌊s⌋ % 2 = 0 then ⌊s⌋ else ⌊s⌋ + 1 : Int) : ℚ)) - s| ≤ 1 / 2 := by
  have hf0 : 0 ≤ ⌊s⌋ := Int.floor_nonneg.mpr hs
  have hf1 : (⌊s⌋ : ℚ) ≤ s := Int.floor_le s
  have hf2 : s < (⌊s⌋ : ℚ) + 1 := Int.lt_floor_add_one s
  split_ifs with h1 h2 h3
  · refine ⟨hf0, by linarith, ?_⟩
    rw [abs_le]; constructor <;> linarith
  · refine ⟨by omega, by push_cast; linarith, ?_⟩
    push_cast
    rw [abs_le]; constructor <;> linarith
  · refine ⟨hf0, by linarith, ?_⟩
    rw [abs_le]; constructor <;> linarith
  · refine ⟨by omega, by push_cast; linarith, ?_⟩
    push_cast
    rw [abs_le]; constructor <;> linarith

/-- The value of `round_binary64`: for `x ≠ 0` in the binade `2 ^ e ≤ |x| < 2 ^ (e + 1)`,
with the unit in the last place `u = 2 ^ max (e - 52) (-1074)`, the result is `± m * u` for
an integer `0 ≤ m ≤ 2 ^ 53` and is within `u / 2` of `x`. -/
theorem round_binary64_spec (x : ℚ) (hx : x ≠ 0) :
    ∃ e m : Int, (2 : ℚ) ^ e ≤ |x| ∧ |x| < (2 : ℚ) ^ (e + 1) ∧ 0 ≤ m ∧ m ≤ 2 ^ 53 ∧
      round_binary64 x =
        (if x < 0 then -1 else 1) * (m : ℚ) * (2 : ℚ) ^ (max (e - 52) (-1074)) ∧
      |round_binary64 x - x| ≤ (2 : ℚ) ^ (max (e - 52) (-1074)) / 2 := by
  have hkey : ∀ e : Int, (2 : ℚ) ^ e ≤ |x| → |x| < (2 : ℚ) ^ (e + 1) →
      ∃ m : Int, 0 ≤ m ∧ m ≤ 2 ^ 53 ∧
        (if x < 0 then -1 else 1) *
            (((if |x| / 2 ^ (max (e - 52) (-1074)) -
                  (⌊|x| / 2 ^ (max (e - 52) (-1074))⌋ : ℚ) < 1 / 2
                then ⌊|x| / 2 ^ (max (e - 52) (-1074))⌋
              else if 1 / 2 < |x| / 2 ^ (max (e - 52) (-1074)) -
                  (⌊|x| / 2 ^ (max (e - 52) (-1074))⌋ : ℚ)
                then ⌊|x| / 2 ^ (max (e - 52) (-1074))⌋ + 1
              else if ⌊|x| / 2 ^ (max (e - 52) (-1074))⌋ % 2 = 0
                then ⌊|x| / 2 ^ (max (e - 52) (-1074))⌋
              else ⌊|x| / 2 ^ (max (e - 52) (-1074))⌋ + 1 : Int) : ℚ)) *
            2 ^ (max (e - 52) (-1074)) =
          (if x < 0 then -1 else 1) * (m : ℚ) * (2 : ℚ) ^ (max (e - 52) (-1074)) ∧
        |(if x < 0 then -1 else 1) *
            (((if |x| / 2 ^ (max (e - 52) (-1074)) -
                  (⌊|x| / 2 ^ (max (e - 52) (-1074))⌋ : ℚ) < 1 / 2
                then ⌊|x| / 2 ^ (max (e - 52) (-1074))⌋
              else if 1 / 2 < |x| / 2 ^ (max (e - 52) (-1074)) -
                  (⌊|x| / 2 ^ (max (e - 52) (-1074))⌋ : ℚ)
                then ⌊|x| / 2 ^ (max (e - 52) (-1074))⌋ + 1
              else if ⌊|x| / 2 ^ (max (e - 52) (-1074))⌋ % 2 = 0
                then ⌊|x| / 2 ^ (max (e - 52) (-1074))⌋
              else ⌊|x| / 2 ^ (max (e - 52) (-1074))⌋ + 1 : Int) : ℚ)) *
            2 ^ (max (e - 52) (-1074)) - x| ≤ (2 : ℚ) ^ (max (e - 52) (-1074)) / 2 := by
    intro e hlo hhi
    have hk : e - 52 ≤ max (e - 52) (-1074) := le_max_left _ _
    generalize max (e - 52) (-1074) = k at hk ⊢
    have hu : (0 : ℚ) < 2 ^ k := by positivity
    have hs0 : 0 ≤ |x| / 2 ^ k := div_nonneg (abs_nonneg x) (le_of_lt hu)
    have hs53 : |x| / 2 ^ k < 2 ^ (53 : ℕ) := by
      rw [div_lt_iff₀ hu]
      have h1 : (2 : ℚ) ^ (e + 1) ≤ 2 ^ (53 : ℕ) * 2 ^ k := by
        rw [← zpow_natCast, ← zpow_add₀ (by norm_num)]
        exact zpow_le_zpow_right₀ (by norm_num) (by push_cast; omega)
      linarith
    obtain ⟨hm0, hm1, hm2⟩ := round_half_even_spec (|x| / 2 ^ k) hs0
    have hxs : |x| = |x| / 2 ^ k * 2 ^ k := by field_simp
    generalize (if |x| / 2 ^ k - (⌊|x| / 2 ^ k⌋ : ℚ) < 1 / 2 then ⌊|x| / 2 ^ k⌋
        else if 1 / 2 < |x| / 2 ^ k - (⌊|x| / 2 ^ k⌋ : ℚ) then ⌊|x| / 2 ^ k⌋ + 1
        else if ⌊|x| / 2 ^ k⌋ % 2 = 0 then ⌊|x| / 2 ^ k⌋ else ⌊|x| / 2 ^ k⌋ + 1) = m
      at hm0 hm1 hm2 ⊢
    have hfl : ⌊|x| / 2 ^ k⌋ < 2 ^ 53 := by
      rw [Int.floor_lt]
      exact_mod_cast hs53
    refine ⟨m, hm0, ?_, rfl, ?_⟩
    · have h2 : (m : ℚ) ≤ ((⌊|x| / 2 ^ k⌋ + 1 : Int) : ℚ) := by push_cast; exact hm1
      have h3 : m ≤ ⌊|x| / 2 ^ k⌋ + 1 := by exact_mod_cast h2
      omega
    · generalize |x| / 2 ^ k = s at hxs hm2
      have hbound : |((m : ℚ) - s) * 2 ^ k| ≤ 2 ^ k / 2 := by
        rw [abs_mul, abs_of_pos hu]
        nlinarith [abs_nonneg ((m : ℚ) - s)]
      by_cases hneg : x < 0
      · rw [if_pos hneg]
        have hxv : x = -(s * 2 ^ k) := by
          rw [← hxs, abs_of_neg hneg, neg_neg]
        have h4 : -1 * (m : ℚ) * 2 ^ k - x = -(((m : ℚ) - s) * 2 ^ k) := by
          rw [hxv]; ring
        rw [h4, abs_neg]
        exact hbound
      · rw [if_neg hneg]
        have hxv : x = s * 2 ^ k := by
          rw [← hxs, abs_of_nonneg (not_lt.mp hneg)]
        have h4 : 1 * (m : ℚ) * 2 ^ k - x = ((m : ℚ) - s) * 2 ^ k := by
          rw [hxv]; ring
        rw [h4]
        exact hbound
  obtain ⟨hlo, hhi⟩ := bit_length_binade x hx
  unfold round_binary64
  rw [if_neg hx]
  dsimp only
  generalize ((bit_length x.num.natAbs : Int) - (bit_length x.den : Int)) = e0 at hlo hhi ⊢
  by_cases h : (2 : ℚ) ^ e0 ≤ |x|
  · rw [if_pos h]
    obtain ⟨m, hm0, hm53, heq, habs⟩ := hkey e0 h hhi
    exact ⟨e0, m, h, hhi, hm0, hm53, heq, habs⟩
  · rw [if_neg h]
    have hhi2 : |x| < (2 : ℚ) ^ (e0 - 1 + 1) := by
      rw [sub_add_cancel]; exact not_le.mp h
    obtain ⟨m, hm0, hm53, heq, habs⟩ := hkey (e0 - 1) hlo hhi2
    exact ⟨e0 - 1, m, hlo, hhi2, hm0, hm53, heq, habs⟩


/-- The choice of the significand of `sqrt_binary64`: for `s ≥ 1` the result `m` is `isqrt`
or one more, and `(m - 1/2)^2 ≤ s ≤ (m + 1/2)^2`. -/
theorem sqrt_round_spec (s : ℚ) (hs : 1 ≤ s) :
    ((isqrt ⌊s⌋₊ : ℚ)) * (isqrt ⌊s⌋₊ : ℚ) ≤ s ∧
    s < ((isqrt ⌊s⌋₊ : ℚ) + 1) * ((isqrt ⌊s⌋₊ : ℚ) + 1) ∧
    (isqrt ⌊s⌋₊ : ℚ) ≤
      (((if s < ((isqrt ⌊s⌋₊ : ℚ) + 1 / 2) ^ 2 then isqrt ⌊s⌋₊
        else if ((isqrt ⌊s⌋₊ : ℚ) + 1 / 2) ^ 2 < s then isqrt ⌊s⌋₊ + 1
        else if isqrt ⌊s⌋₊ % 2 = 0 then isqrt ⌊s⌋₊ else isqrt ⌊s⌋₊ + 1 : Nat) : ℚ)) ∧
    (((if s < ((isqrt ⌊s⌋₊ : ℚ) + 1 / 2) ^ 2 then isqrt ⌊s⌋₊
        else if ((isqrt ⌊s⌋₊ : ℚ) + 1 / 2) ^ 2 < s then isqrt ⌊s⌋₊ + 1
        else if isqrt ⌊s⌋₊ % 2 = 0 then isqrt ⌊s⌋₊ else isqrt ⌊s⌋₊ + 1 : Nat) : ℚ)) ≤
      (isqrt ⌊s⌋₊ : ℚ) + 1 ∧
    ((((if s < ((isqrt ⌊s⌋₊ : ℚ) + 1 / 2) ^ 2 then isqrt ⌊s⌋₊
        else if ((isqrt ⌊s⌋₊ : ℚ) + 1 / 2) ^ 2 < s then isqrt ⌊s⌋₊ + 1
        else if isqrt ⌊s⌋₊ % 2 = 0 then isqrt ⌊s⌋₊ else isqrt ⌊s⌋₊ + 1 : Nat) : ℚ)) - 1 / 2) ^ 2
      ≤ s ∧
    s ≤ ((((if s < ((isqrt ⌊s⌋₊ : ℚ) + 1 / 2) ^ 2 then isqrt ⌊s⌋₊
        else if ((isqrt ⌊s⌋₊ : ℚ) + 1 / 2) ^ 2 < s then isqrt ⌊s⌋₊ + 1
        else if isqrt ⌊s⌋₊ % 2 = 0 then isqrt ⌊s⌋₊ else isqrt ⌊s⌋₊ + 1 : Nat) : ℚ)) + 1 / 2) ^ 2
      := by
  have hs0 : 0 ≤ s := by linarith
  obtain ⟨h1, h2⟩ := isqrt_spec ⌊s⌋₊
  have hfl1 : (⌊s⌋₊ : ℚ) ≤ s := Nat.floor_le hs0
  have hfl2 : s < (⌊s⌋₊ : ℚ) + 1 := Nat.lt_floor_add_one s
  have hn1 : 1 ≤ ⌊s⌋₊ := Nat.le_floor (by exact_mod_cast hs)
  have hf1 : 1 ≤ isqrt ⌊s⌋₊ := by
    by_contra hcon
    have h0 : isqrt ⌊s⌋₊ = 0 := by omega
    rw [h0] at h2
    omega
  have h1q : (isqrt ⌊s⌋₊ : ℚ) * (isqrt ⌊s⌋₊ : ℚ) ≤ (⌊s⌋₊ : ℚ) := by exact_mod_cast h1
  have h2q : (⌊s⌋₊ : ℚ) + 1 ≤ ((isqrt ⌊s⌋₊ : ℚ) + 1) * ((isqrt ⌊s⌋₊ : ℚ) + 1) := by
    have : ⌊s⌋₊ + 1 ≤ (isqrt ⌊s⌋₊ + 1) * (isqrt ⌊s⌋₊ + 1) := h2
    exact_mod_cast this
  have hf1q : (1 : ℚ) ≤ (isqrt ⌊s⌋₊ : ℚ) := by exact_mod_cast hf1
  generalize (isqrt ⌊s⌋₊ : ℕ) = f at h1q h2q hf1q ⊢
  refine ⟨by linarith, by linarith, ?_⟩
  split_ifs with c1 c2 c3
  · refine ⟨le_refl _, by linarith, by nlinarith, le_of_lt c1⟩
  · push_cast
    refine ⟨by linarith, le_refl _, ?_, by nlinarith⟩
    have : (f : ℚ) + 1 - 1 / 2 = f + 1 / 2 := by ring
    rw [this]
    exact le_of_lt c2
  · refine ⟨le_refl _, by linarith, by nlinarith, not_lt.mp c2⟩
  · push_cast
    refine ⟨by linarith, le_refl _, ?_, by nlinarith⟩
    have : (f : ℚ) + 1 - 1 / 2 = f + 1 / 2 := by ring
    rw [this]
    exact not_lt.mp c1


/-- The value of `sqrt_binary64`: for `x > 0` with `4 ^ e ≤ x < 4 ^ (e + 1)` and the unit in
the last place `u = 2 ^ (e - 52)`, the result is `m * u` for an integer
`2 ^ 52 ≤ m ≤ 2 ^ 53`, and the exact square root is within `u / 2` of it:
`((m - 1/2) * u)^2 ≤ x ≤ ((m + 1/2) * u)^2`. -/
theorem sqrt_binary64_spec (x : ℚ) (hx : 0 < x) :
    ∃ (e : Int) (m : Nat), (4 : ℚ) ^ e ≤ x ∧ x < (4 : ℚ) ^ (e + 1) ∧
      2 ^ 52 ≤ m ∧ m ≤ 2 ^ 53 ∧
      sqrt_binary64 x = (m : ℚ) * (2 : ℚ) ^ (e - 52) ∧
      (((m : ℚ) - 1 / 2) * (2 : ℚ) ^ (e - 52)) ^ 2 ≤ x ∧
      x ≤ (((m : ℚ) + 1 / 2) * (2 : ℚ) ^ (e - 52)) ^ 2 := by
  have h4 : ∀ n : Int, (4 : ℚ) ^ n = 2 ^ n * 2 ^ n := by
    intro n
    rw [← mul_zpow]
    norm_num
  have hkey : ∀ e : Int, (4 : ℚ) ^ e ≤ x → x < (4 : ℚ) ^ (e + 1) →
      ∃ m : Nat, 2 ^ 52 ≤ m ∧ m ≤ 2 ^ 53 ∧
        (((if x / 4 ^ (e - 52) < ((isqrt ⌊x / 4 ^ (e - 52)⌋₊ : ℚ) + 1 / 2) ^ 2
              then isqrt ⌊x / 4 ^ (e - 52)⌋₊
            else if ((isqrt ⌊x / 4 ^ (e - 52)⌋₊ : ℚ) + 1 / 2) ^ 2 < x / 4 ^ (e - 52)
              then isqrt ⌊x / 4 ^ (e - 52)⌋₊ + 1
            else if isqrt ⌊x / 4 ^ (e - 52)⌋₊ % 2 = 0 then isqrt ⌊x / 4 ^ (e - 52)⌋₊
            else isqrt ⌊x / 4 ^ (e - 52)⌋₊ + 1 : Nat) : ℚ)) * (2 : ℚ) ^ (e - 52) =
          (m : ℚ) * (2 : ℚ) ^ (e - 52) ∧
        (((m : ℚ) - 1 / 2) * (2 : ℚ) ^ (e - 52)) ^ 2 ≤ x ∧
        x ≤ (((m : ℚ) + 1 / 2) * (2 : ℚ) ^ (e - 52)) ^ 2 := by
    intro e hlo hhi
    have hu : (0 : ℚ) < 4 ^ (e - 52) := by positivity
    have hlo2 : (4 : ℚ) ^ (52 : ℕ) ≤ x / 4 ^ (e - 52) := by
      rw [le_div_iff₀ hu, ← zpow_natCast, ← zpow_add₀ (by norm_num)]
      have : ((52 : ℕ) : Int) + (e - 52) = e := by push_cast; ring
      rw [this]
      exact hlo
    have hhi2 : x / 4 ^ (e - 52) < (4 : ℚ) ^ (53 : ℕ) := by
      rw [div_lt_iff₀ hu, ← zpow_natCast, ← zpow_add₀ (by norm_num)]
      have : ((53 : ℕ) : Int) + (e - 52) = e + 1 := by push_cast; ring
      rw [this]
      exact hhi
    have hxs : x = x / 4 ^ (e - 52) * (2 ^ (e - 52) * 2 ^ (e - 52)) := by
      rw [← h4]; field_simp
    have hs1 : (1 : ℚ) ≤ x / 4 ^ (e - 52) := le_trans (by norm_num) hlo2
    obtain ⟨hf1, hf2, hm1, hm2, hm3, hm4⟩ := sqrt_round_spec (x / 4 ^ (e - 52)) hs1
    generalize (if x / 4 ^ (e - 52) < ((isqrt ⌊x / 4 ^ (e - 52)⌋₊ : ℚ) + 1 / 2) ^ 2
              then isqrt ⌊x / 4 ^ (e - 52)⌋₊
            else if ((isqrt ⌊x / 4 ^ (e - 52)⌋₊ : ℚ) + 1 / 2) ^ 2 < x / 4 ^ (e - 52)
              then isqrt ⌊x / 4 ^ (e - 52)⌋₊ + 1
            else if isqrt ⌊x / 4 ^ (e - 52)⌋₊ % 2 = 0 then isqrt ⌊x / 4 ^ (e - 52)⌋₊
            else isqrt ⌊x / 4 ^ (e - 52)⌋₊ + 1 : Nat) = m at hm1 hm2 hm3 hm4 ⊢
    generalize x / 4 ^ (e - 52) = s at hlo2 hhi2 hxs hf1 hf2 hm1 hm2 hm3 hm4
    generalize (isqrt ⌊s⌋₊ : ℕ) = f at hf1 hf2 hm1 hm2
    have hfq0 : (0 : ℚ) ≤ f := Nat.cast_nonneg f
    have hflo : (2 : ℚ) ^ (52 : ℕ) < (f : ℚ) + 1 := by
      by_contra hcon
      have h5 : (f : ℚ) + 1 ≤ 2 ^ (52 : ℕ) := not_lt.mp hcon
      have h6 : ((f : ℚ) + 1) * ((f : ℚ) + 1) ≤ 2 ^ (52 : ℕ) * 2 ^ (52 : ℕ) :=
        mul_le_mul h5 h5 (by linarith) (by positivity)
      have h7 : (4 : ℚ) ^ (52 : ℕ) = 2 ^ (52 : ℕ) * 2 ^ (52 : ℕ) := by norm_num
      linarith
    have hfhi : (f : ℚ) < 2 ^ (53 : ℕ) := by
      by_contra hcon
      have h5 : (2 : ℚ) ^ (53 : ℕ) ≤ f := not_lt.mp hcon
      have h6 : (2 : ℚ) ^ (53 : ℕ) * 2 ^ (53 : ℕ) ≤ (f : ℚ) * f :=
        mul_le_mul h5 h5 (by positivity) hfq0
      have h7 : (4 : ℚ) ^ (53 : ℕ) = 2 ^ (53 : ℕ) * 2 ^ (53 : ℕ) := by norm_num
      linarith
    have hflo2 : 2 ^ 52 < f + 1 := by exact_mod_cast hflo
    have hfhi2 : f < 2 ^ 53 := by exact_mod_cast hfhi
    have hm1n : f ≤ m := by exact_mod_cast hm1
    have hm2n : m ≤ f + 1 := by exact_mod_cast hm2
    have hpos : (0 : ℚ) < 2 ^ (e - 52) * 2 ^ (e - 52) := by positivity
    refine ⟨m, by omega, by omega, rfl, ?_, ?_⟩
    · rw [mul_pow, sq ((2 : ℚ) ^ (e - 52)), hxs]
      exact mul_le_mul_of_nonneg_right hm3 (le_of_lt hpos)
    · rw [mul_pow, sq ((2 : ℚ) ^ (e - 52))]
      conv_lhs => rw [hxs]
      exact mul_le_mul_of_nonneg_right hm4 (le_of_lt hpos)
  obtain ⟨hlo, hhi⟩ := bit_length_binade x (ne_of_gt hx)
  rw [abs_of_pos hx] at hlo hhi
  unfold sqrt_binary64
  rw [if_neg (not_le.mpr hx)]
  dsimp only
  generalize ((bit_length x.num.natAbs : Int) - (bit_length x.den : Int)) = E at hlo hhi ⊢
  have h42 : ∀ n : Int, (4 : ℚ) ^ n = 2 ^ (2 * n) := by
    intro n
    rw [zpow_mul]
    norm_num
  have hup : x < (4 : ℚ) ^ (E / 2 + 1) := by
    rw [h42]
    exact lt_of_lt_of_le hhi (zpow_le_zpow_right₀ (by norm_num) (by omega))
  have hdown : (4 : ℚ) ^ (E / 2 - 1) ≤ x := by
    rw [h42]
    exact le_trans (zpow_le_zpow_right₀ (by norm_num) (by omega)) hlo
  rw [if_neg (not_le.mpr hup)]
  by_cases c2 : (4 : ℚ) ^ (E / 2) ≤ x
  · rw [if_pos c2]
    obtain ⟨m, hm0, hm53, heq, h1, h2⟩ := hkey (E / 2) c2 hup
    exact ⟨E / 2, m, c2, hup, hm0, hm53, heq, h1, h2⟩
  · rw [if_neg c2]
    have hhi2 : x < (4 : ℚ) ^ (E / 2 - 1 + 1) := by
      rw [sub_add_cancel]; exact not_le.mp c2
    obtain ⟨m, hm0, hm53, heq, h1, h2⟩ := hkey (E / 2 - 1) hdown hhi2
    exact ⟨E / 2 - 1, m, hdown, hhi2, hm0, hm53, heq, h1, h2⟩

/-! ## Binary64: values of the rounding functions -/

/-- The rounding to binary64 at some rationals: the `double`s `0.1`, `0.01` and `-1/3`, a
representable number, the two kinds of tie, and the subnormal range. -/
theorem round_binary64_values :
    round_binary64 (1 / 10) = 3602879701896397 / 36028797018963968 ∧
    round_binary64 (1 / 100) = 5764607523034235 / 576460752303423488 ∧
    round_binary64 (-1 / 3) = -6004799503160661 / 18014398509481984 ∧
    round_binary64 (3 / 8) = 3 / 8 ∧
    round_binary64 (1 + 1 / 2 ^ 53) = 1 ∧
    round_binary64 (1 + 3 / 2 ^ 53) = 1 + 1 / 2 ^ 51 ∧
    round_binary64 (1 / 2 ^ 1074) = 1 / 2 ^ 1074 ∧
    round_binary64 (1 / 2 ^ 1075) = 0 ∧
    round_binary64 (3 / 2 ^ 1075) = 1 / 2 ^ 1073 := by
  decide!

/-- The rounded square root at some `double`s: exact roots, and the `double`s nearest to the
square roots of 2 and 3. -/
theorem sqrt_binary64_values :
    sqrt_binary64 4 = 2 ∧
    sqrt_binary64 (1 / 4) = 1 / 2 ∧
    sqrt_binary64 2 = 6369051672525773 / 4503599627370496 ∧
    sqrt_binary64 3 = 3900231685776981 / 2251799813685248 ∧
    sqrt_binary64 (1 + 1 / 2 ^ 52) = 1 := by
  decide!

/-! ## C4, C13, C20 in binary64 -/

/-- C4 fails as stated, in double arithmetic: for the sphere of center `(0.5, 0, -1)` and
radius `1.118033988749895` and the ray from `(0, 0, 0)` along `(0, 0, 1)`, the origin is
strictly inside the sphere (exactly, and by the test `l2 > r2` of the code), the hit is
reported, and the reported distance is `0`: `p = -1` and `q` is rounded to `1`. -/
theorem ray_sphere_intersection_inside_binary64 :
    dotp (subv (⟨1 / 2, 0, -1⟩ : vector ℚ) ⟨0, 0, 0⟩) (subv ⟨1 / 2, 0, -1⟩ ⟨0, 0, 0⟩) <
      round_binary64 (1118033988749895 / 1000000000000000) *
        round_binary64 (1118033988749895 / 1000000000000000) ∧
    dotp_fl round_binary64 (subv_fl round_binary64 (⟨1 / 2, 0, -1⟩ : vector ℚ) ⟨0, 0, 0⟩)
        (subv_fl round_binary64 ⟨1 / 2, 0, -1⟩ ⟨0, 0, 0⟩) <
      round_binary64 (round_binary64 (1118033988749895 / 1000000000000000) *
        round_binary64 (1118033988749895 / 1000000000000000)) ∧
    (ray_sphere_intersection_fl round_binary64 sqrt_binary64 ⟨⟨0, 0, 0⟩, ⟨0, 0, 1⟩⟩
      ⟨⟨1 / 2, 0, -1⟩, round_binary64 (1118033988749895 / 1000000000000000)⟩).intersected
        = 1 ∧
    (ray_sphere_intersection_fl round_binary64 sqrt_binary64 ⟨⟨0, 0, 0⟩, ⟨0, 0, 1⟩⟩
      ⟨⟨1 / 2, 0, -1⟩, round_binary64 (1118033988749895 / 1000000000000000)⟩).distance
        = 0 ∧
    ¬ ∃ t : ℚ,
      (ray_sphere_intersection_fl round_binary64 sqrt_binary64 ⟨⟨0, 0, 0⟩, ⟨0, 0, 1⟩⟩
        ⟨⟨1 / 2, 0, -1⟩, round_binary64 (1118033988749895 / 1000000000000000)⟩).distance
          = (t : ℚ) ∧ 0 < t := by
  have hdist : (ray_sphere_intersection_fl round_binary64 sqrt_binary64
      ⟨⟨0, 0, 0⟩, ⟨0, 0, 1⟩⟩
      ⟨⟨1 / 2, 0, -1⟩, round_binary64 (1118033988749895 / 1000000000000000)⟩).distance
        = 0 := by
    decide!
  refine ⟨by decide!, by decide!, by decide!, hdist, ?_⟩
  rintro ⟨t, ht, hpos⟩
  rw [hdist] at ht
  have h0 : (0 : ℚ) = t := by exact_mod_cast ht
  rw [← h0] at hpos
  exact lt_irrefl _ hpos

end Raytracer
